import Mathlib

/-!
Verification development for the CSV ingestion pipeline of the
sentiment-evaluation backend (`services/csv_processor.py` together with the
persistent entities of `core/models.py`).

The embedding is shallow and executable:

* a parsed CSV table is a list of raw rows (cells are `Option String`, `none`
  standing for a missing value / NaN) together with the column list;
* the persistent store is three lists of records (reviews, review sentences,
  model predictions), mirroring the three Django tables; timestamps and the
  surrogate UUID primary keys are omitted (no pipeline logic reads them);
* Django ORM calls (`get_or_create`, `update_or_create`) become lookups by
  natural key over those lists; database errors that the source can hit
  (NOT NULL violations on non-nullable text columns, `MultipleObjectsReturned`
  on a duplicated key) become `Except` errors; `transaction.atomic` becomes
  "on error the store is returned unchanged";
* `DataUploadLog.save()` calls are made observable as a trace of ledger
  snapshots, one per `save()` in the source.
-/

deriving instance DecidableEq for Except

namespace SentimentEval

/-! ## Python string helpers (`str.strip`, truthiness) -/

/-- Whitespace characters recognised by Python's `str.strip()` (ASCII part). -/
def isPySpace (c : Char) : Bool :=
  c = ' ' || c = '\t' || c = '\n' || c = '\r' || c = '\x0b' || c = '\x0c'

/-- Python `s.strip()`: remove leading and trailing whitespace. -/
def pyStrip (s : String) : String :=
  String.mk (((s.toList.dropWhile isPySpace).reverse.dropWhile isPySpace).reverse)

/-- Truthiness of an optional string in Python: `None` and `''` are falsy. -/
def pyTruthy : Option String → Bool
  | none => false
  | some s => s ≠ ""

/-! ## Data model (`core/models.py`)

`Review`, `ReviewSentence` and `ModelPrediction` keep exactly the columns the
pipeline reads or writes.  Foreign keys are represented by the natural keys the
processor looks records up by (`review_id`, and `(review_id, sentence_id)`).
`review_text`, `review_sentence` and `prediction_text` are non-nullable
(`TextField` with the default `null=False`); the three per-model columns on
`ReviewSentence` and `confidence_score` are nullable. -/

inductive ModelName
  | gpt4
  | gemini
  | perplexity
  deriving DecidableEq, Repr

structure Review where
  review_id : String
  review_text : String
  deriving DecidableEq, Repr

structure ReviewSentence where
  review_id : String
  sentence_id : String
  review_sentence : String
  gpt4_prediction : Option String
  gemini_prediction : Option String
  perplexity_prediction : Option String
  deriving DecidableEq, Repr

structure ModelPrediction where
  review_id : String
  sentence_id : String
  model_name : ModelName
  prediction_text : String
  confidence_score : Option ℚ
  deriving DecidableEq, Repr

/-- The persistent store: the three tables mutated by the processor. -/
structure Store where
  reviews : List Review
  sentences : List ReviewSentence
  preds : List ModelPrediction
  deriving DecidableEq, Repr

def emptyStore : Store := ⟨[], [], []⟩

/-- All rows of the `reviews` table matching an external review id
(`Review.objects` filtered by `review_id`). -/
def reviewsWith (S : Store) (rid : String) : List Review :=
  S.reviews.filter (fun r => r.review_id == rid)

/-- All rows of the `review_sentences` table with the given natural key. -/
def sentencesWith (S : Store) (rid sid : String) : List ReviewSentence :=
  S.sentences.filter (fun s => s.review_id == rid && s.sentence_id == sid)

/-- All rows of the `model_predictions` table with the given natural key. -/
def predsWith (S : Store) (rid sid : String) (m : ModelName) : List ModelPrediction :=
  S.preds.filter (fun p => p.review_id == rid && p.sentence_id == sid && p.model_name == m)

/-- Well-formedness of the store: the uniqueness constraints that
`core/models.py` declares (`unique_together` on `(review, sentence_id)` and on
`(sentence, model_name)`), application-level uniqueness of `review_id`, and
the foreign key from predictions to sentences. -/
def Store.wf (S : Store) : Prop :=
  (S.reviews.map (fun r => r.review_id)).Nodup ∧
  (S.sentences.map (fun s => (s.review_id, s.sentence_id))).Nodup ∧
  (S.preds.map (fun p => (p.review_id, p.sentence_id, p.model_name))).Nodup ∧
  ∀ p ∈ S.preds, ∃ sn ∈ S.sentences,
    sn.review_id = p.review_id ∧ sn.sentence_id = p.sentence_id

instance (S : Store) : Decidable S.wf := by
  unfold Store.wf
  infer_instance

/-! ## Raw tables and cleaning (`CSVProcessor._clean_data`)

A raw row holds one cell per required column; `none` is a missing value (NaN).
`RawTable.cols` records which columns the parsed file actually has; a field of
a row is meaningful only when its column is present. -/

structure RawRow where
  review_id : Option String
  review_text : Option String
  review_sentence : Option String
  gpt4 : Option String
  gemini : Option String
  perplexity : Option String
  sentence_id : Option String
  deriving DecidableEq, Repr

structure RawTable where
  cols : List String
  rows : List RawRow
  deriving DecidableEq, Repr

/-- A cleaned row: identifiers are plain (stripped) strings, text fields are
`Option String` with `none` for a null produced by the sentinel replacement. -/
structure CleanRow where
  review_id : String
  review_text : Option String
  review_sentence : Option String
  gpt4 : Option String
  gemini : Option String
  perplexity : Option String
  sentence_id : String
  deriving DecidableEq, Repr

/-- `astype(str)` rendering of one cell: pandas renders a missing value (NaN)
as the string `"nan"`. -/
def strCell : Option String → String
  | none => "nan"
  | some s => s

/-- The sentinel strings replaced by null in `_clean_data`
(`df[col].replace(['nan', 'NaN', 'null', ''], None)`). -/
def SENTINELS : List String := ["nan", "NaN", "null", ""]

/-- One text cell after `astype(str).str.strip()` followed by the sentinel
replacement. -/
def cleanTextCell (v : Option String) : Option String :=
  let s := pyStrip (strCell v)
  if s ∈ SENTINELS then none else some s

/-- Columns whose absence of a value drops the row
(`df.dropna(subset=['review_id', 'review_sentence', 'sentence_id'])`). -/
def essentialColumns : List String := ["review_id", "review_sentence", "sentence_id"]

/-- Does the raw row have a value in every essential column? -/
def hasEssential (r : RawRow) : Bool :=
  r.review_id.isSome && r.review_sentence.isSome && r.sentence_id.isSome

/-- Clean one (kept) raw row.  Text columns are cleaned only when present in
the file (`if col in df.columns`); an absent `review_text` column makes
`row.get('review_text', '')` fall back to `''` in the processor, which we
encode as `some ""`, while the three prediction columns fall back to `None`.
Identifier columns are stripped but not sentinel-replaced. -/
def cleanRowOf (cols : List String) (r : RawRow) : CleanRow where
  review_id := pyStrip (strCell r.review_id)
  review_text := if cols.contains "review_text" then cleanTextCell r.review_text else some ""
  review_sentence := cleanTextCell r.review_sentence
  gpt4 := if cols.contains "gpt4" then cleanTextCell r.gpt4 else none
  gemini := if cols.contains "Gemini flash 2.5" then cleanTextCell r.gemini else none
  perplexity := if cols.contains "perplexity" then cleanTextCell r.perplexity else none
  sentence_id := pyStrip (strCell r.sentence_id)

/-- `_clean_data`: raises (KeyError) when an essential column is missing from
the file, otherwise drops rows missing essential data and cleans the rest.
Returns the cleaned rows paired with their original 0-based dataframe index
(pandas keeps original indices across `dropna`) and the dropped-row count. -/
def clean_data (t : RawTable) : Except String (List (Nat × CleanRow) × Nat) :=
  if essentialColumns.all (fun c => t.cols.contains c) then
    let indexed := t.rows.enum
    let kept := indexed.filter (fun ir => hasEssential ir.2)
    .ok (kept.map (fun ir => (ir.1, cleanRowOf t.cols ir.2)), indexed.length - kept.length)
  else
    .error "KeyError: essential columns missing from the dataframe"

/-! ## Per-row reconciliation (`CSVProcessor._process_single_row`)

A row-local exception is represented as a `RowError`; `transaction.atomic`
means the caller keeps the pre-call store when an error is returned. -/

inductive RowError
  | notNullViolation (field : String)
  | multipleObjectsReturned (entity : String)
  deriving DecidableEq, Repr

/-- A printable message for a row-local error (used in the processing log). -/
def RowError.msg : RowError → String
  | .notNullViolation f => "NOT NULL constraint failed: " ++ f
  | .multipleObjectsReturned e => "get returned more than one " ++ e

/-- `Review.objects.get_or_create(review_id=..., defaults={'review_text':
row.get('review_text', '')})` followed by the conditional text update.
Creating with a `None` text violates the NOT NULL constraint on
`review_text`; two existing rows with the same `review_id` raise
`MultipleObjectsReturned`. -/
def getOrCreateReview (S : Store) (row : CleanRow) : Except RowError (Store × Review) :=
  match reviewsWith S row.review_id with
  | [] =>
      match row.review_text with
      | none => .error (.notNullViolation "review_text")
      | some t => .ok ({S with reviews := S.reviews ++ [⟨row.review_id, t⟩]}, ⟨row.review_id, t⟩)
  | [r] =>
      if pyTruthy row.review_text then
        match row.review_text with
        | some t =>
            if r.review_text ≠ t then
              .ok ({S with reviews :=
                      S.reviews.map (fun q =>
                        if q.review_id == row.review_id then ⟨q.review_id, t⟩ else q)},
                   ⟨r.review_id, t⟩)
            else .ok (S, r)
        | none => .ok (S, r)
      else .ok (S, r)
  | _ => .error (.multipleObjectsReturned "Review")

/-- The `ReviewSentence` record a row writes when the sentence is created or
fully updated. -/
def sentenceOf (row : CleanRow) (txt : String) : ReviewSentence :=
  ⟨row.review_id, row.sentence_id, txt, row.gpt4, row.gemini, row.perplexity⟩

/-- `ReviewSentence.objects.get_or_create(review=..., sentence_id=...,
defaults=...)` followed by the field-by-field change detection and single
save.  Creating — or updating `review_sentence` to — a `None` sentence text
violates the NOT NULL constraint on `review_sentence`. -/
def getOrCreateSentence (S : Store) (row : CleanRow) :
    Except RowError (Store × ReviewSentence) :=
  match sentencesWith S row.review_id row.sentence_id with
  | [] =>
      match row.review_sentence with
      | none => .error (.notNullViolation "review_sentence")
      | some txt =>
          .ok ({S with sentences := S.sentences ++ [sentenceOf row txt]}, sentenceOf row txt)
  | [sn] =>
      if some sn.review_sentence = row.review_sentence ∧
          sn.gpt4_prediction = row.gpt4 ∧ sn.gemini_prediction = row.gemini ∧
          sn.perplexity_prediction = row.perplexity then
        .ok (S, sn)
      else
        match row.review_sentence with
        | none => .error (.notNullViolation "review_sentence")
        | some txt =>
            .ok ({S with sentences :=
                    S.sentences.map (fun q =>
                      if q.review_id == row.review_id && q.sentence_id == row.sentence_id then
                        sentenceOf row txt
                      else q)},
                 sentenceOf row txt)
  | _ => .error (.multipleObjectsReturned "ReviewSentence")

/-- The prediction cell of a cleaned row for one model, following
`COLUMN_MAPPING` (`gpt4` / `Gemini flash 2.5` / `perplexity`). -/
def predOf (row : CleanRow) : ModelName → Option String
  | .gpt4 => row.gpt4
  | .gemini => row.gemini
  | .perplexity => row.perplexity

/-- The guard `if prediction_text and prediction_text.strip():` — true iff the
cell is non-null, non-empty and not whitespace-only. -/
def nonBlank : Option String → Bool
  | none => false
  | some s => s ≠ "" && pyStrip s ≠ ""

/-- `ModelPrediction.objects.update_or_create(sentence=..., model_name=...,
defaults={'prediction_text': ..., 'confidence_score': None})`. -/
def upsertPrediction (S : Store) (rid sid : String) (m : ModelName) (txt : String) :
    Except RowError Store :=
  match predsWith S rid sid m with
  | [] => .ok {S with preds := S.preds ++ [⟨rid, sid, m, txt, none⟩]}
  | [_] =>
      .ok {S with preds :=
             S.preds.map (fun p =>
               if p.review_id == rid && p.sentence_id == sid && p.model_name == m then
                 ⟨p.review_id, p.sentence_id, p.model_name, txt, none⟩
               else p)}
  | _ => .error (.multipleObjectsReturned "ModelPrediction")

/-- The fixed `(model_name, prediction_text)` list of
`_create_model_predictions`. -/
def modelData (row : CleanRow) : List (ModelName × Option String) :=
  [(.gpt4, row.gpt4), (.gemini, row.gemini), (.perplexity, row.perplexity)]

/-- `_create_model_predictions`: one upsert per model with a non-blank
prediction cell; a blank cell skips that model entirely. -/
def createModelPredictions (S : Store) (sn : ReviewSentence) (row : CleanRow) :
    Except RowError Store :=
  (modelData row).foldlM
    (fun acc mp =>
      if nonBlank mp.2 then
        upsertPrediction acc sn.review_id sn.sentence_id mp.1 (mp.2.getD "")
      else .ok acc)
    S

/-- `_process_single_row`: review, then sentence, then per-model predictions;
the first raised error aborts the row. -/
def processSingleRow (S : Store) (row : CleanRow) : Except RowError Store :=
  match getOrCreateReview S row with
  | .error e => .error e
  | .ok (S1, _review) =>
      match getOrCreateSentence S1 row with
      | .error e => .error e
      | .ok (S2, sn) => createModelPredictions S2 sn row

/-- The store after attempting one row: on any row-local error the enclosing
`transaction.atomic` rolls every write of the row back. -/
def stepStore (S : Store) (row : CleanRow) : Store :=
  match processSingleRow S row with
  | .ok S' => S'
  | .error _ => S

/-! ## Batch loop and run accumulator (`CSVProcessor._process_batch`)

The processor accumulates `successful_rows`, `failed_rows` and
`processing_log` as instance state across the run. -/

structure RunAcc where
  store : Store
  successful : Nat
  failed : Nat
  plog : List String
  deriving DecidableEq, Repr

/-- The body of the row loop: attempt one row inside `transaction.atomic`;
success increments `successful_rows`, any error increments `failed_rows` and
logs `Row {index + 1}: {message}` (with the row's original dataframe index). -/
def processRowStep (acc : RunAcc) (ir : Nat × CleanRow) : RunAcc :=
  match processSingleRow acc.store ir.2 with
  | .ok S' => {acc with store := S', successful := acc.successful + 1}
  | .error e =>
      {acc with failed := acc.failed + 1,
                plog := acc.plog ++ ["Row " ++ toString (ir.1 + 1) ++ ": " ++ e.msg]}

/-- `_process_batch`: log the batch start, then process each row of the
batch. -/
def processBatch (acc : RunAcc) (batchStartRow : Nat) (batch : List (Nat × CleanRow)) :
    RunAcc :=
  List.foldl processRowStep
    {acc with plog := acc.plog ++ ["Processing batch starting at row " ++ toString batchStartRow]}
    batch

/-- Chunking worker, structurally recursive on a fuel argument (the fuel is
always at least the list length, so the `0, l` fallback is never reached). -/
def toBatchesAux (n : Nat) : Nat → List α → List (List α)
  | _, [] => []
  | 0, l => [l]
  | fuel + 1, x :: xs =>
      if n = 0 then [x :: xs]
      else (x :: xs).take n :: toBatchesAux n fuel ((x :: xs).drop n)

/-- Split a list into consecutive chunks of `n` elements, mirroring
`range(0, total_rows, batch_size)` with `df.iloc[i:i + batch_size]`.  The
source always uses `n = 1000`. -/
def toBatches (n : Nat) (l : List α) : List (List α) :=
  toBatchesAux n l.length l

/-- The whole batch loop: `batch_start_row` of each batch is one past the
number of rows already handed to earlier batches. -/
def processBatches (acc : RunAcc) (pos : Nat) : List (List (Nat × CleanRow)) → RunAcc
  | [] => acc
  | b :: bs => processBatches (processBatch acc (pos + 1) b) (pos + b.length) bs

/-! ## Upload ledger (`DataUploadLog`) and `process_csv_file` -/

inductive UploadStatus
  | pending
  | processing
  | completed
  | failed
  deriving DecidableEq, Repr

/-- The `processing_log` JSON field: `{}` initially, `{logs, summary}` on
completion, `{error, logs}` on failure. -/
inductive ProcessingLog
  | empty
  | completedLog (logs : List String) (total successful failedCount : Nat)
  | failedLog (error : String) (logs : List String)
  deriving DecidableEq, Repr

structure UploadLog where
  status : UploadStatus
  total_rows : Nat
  successful_rows : Nat
  failed_rows : Nat
  error_message : Option String
  processing_log : ProcessingLog
  deriving DecidableEq, Repr

/-- A freshly created `DataUploadLog` (model defaults: status `pending`,
zero counts, empty log). -/
def initialUploadLog : UploadLog := ⟨.pending, 0, 0, 0, none, .empty⟩

/-- The value returned by `process_csv_file`: the success dict or the error
dict. -/
inductive RunResult
  | success (total successfulCount failedCount : Nat) (plog : List String)
  | failure (error : String) (plog : List String)
  deriving DecidableEq, Repr

/-- The `except` branch of `process_csv_file`: mark the ledger failed,
record the error message, preserve the accumulated log, save. -/
def failRun (S : Store) (L1 : UploadLog) (plog : List String) (msg : String) :
    Store × UploadLog × List UploadLog × RunResult :=
  let Lf := {L1 with status := .failed, error_message := some msg,
                     processing_log := .failedLog msg plog}
  (S, Lf, [L1, Lf], .failure msg plog)

/-- `process_csv_file`, given the persistent store, the run's ledger and the
outcome of `_read_csv` (already wrapped as `Failed to read CSV file: ...` on
error).  Returns the final store, the final ledger, the trace of ledger
snapshots in `save()` order, and the returned dict. -/
def process_csv_file (S : Store) (log0 : UploadLog) (input : Except String RawTable) :
    Store × UploadLog × List UploadLog × RunResult :=
  let L1 := {log0 with status := UploadStatus.processing}
  match input with
  | .error msg => failRun S L1 [] msg
  | .ok t =>
      let plogRead := ["Successfully read CSV"]
      match clean_data t with
      | .error msg => failRun S L1 plogRead msg
      | .ok (rows, dropped) =>
          let plog0 := plogRead ++
            (if dropped > 0 then
              ["Dropped " ++ toString dropped ++ " rows with missing essential data"]
             else [])
          let total := rows.length
          let L2 := {L1 with total_rows := total}
          let acc := processBatches ⟨S, 0, 0, plog0⟩ 0 (toBatches 1000 rows)
          let L3 := {L2 with successful_rows := acc.successful,
                             failed_rows := acc.failed,
                             status := UploadStatus.completed,
                             processing_log :=
                               .completedLog acc.plog total acc.successful acc.failed}
          (acc.store, L3, [L1, L2, L3], .success total acc.successful acc.failed acc.plog)

/-! ## Encoding-resilient reader (`CSVProcessor._read_csv`)

One `pd.read_csv(file_path, encoding=e, sep=sep)` call is an `Attempt`: it
returns a table, raises `UnicodeDecodeError`, or raises some other exception.
The inner loop retries only on `UnicodeDecodeError`; the post-loop raise and
the outer wrapping are kept separate so the raise site is observable. -/

inductive Encoding
  | utf8
  | latin1
  | cp1252
  deriving DecidableEq, Repr

/-- The candidate list `['utf-8', 'latin-1', 'cp1252']`, in source order. -/
def encodingCandidates : List Encoding := [.utf8, .latin1, .cp1252]

inductive Attempt
  | ok (t : RawTable)
  | unicodeError
  | otherError (msg : String)
  deriving Repr

inductive ReadFailure
  | decodeExhausted
  | other (msg : String)
  deriving DecidableEq, Repr

/-- The `for encoding in [...]` loop with `except UnicodeDecodeError:
continue`, followed by `raise ValueError("Could not decode CSV file with
common encodings")` when the candidates are exhausted. -/
def tryEncodings (attempt : Encoding → Attempt) : List Encoding → Except ReadFailure RawTable
  | [] => .error .decodeExhausted
  | e :: rest =>
      match attempt e with
      | .ok t => .ok t
      | .unicodeError => tryEncodings attempt rest
      | .otherError msg => .error (.other msg)

def readFailureMessage : ReadFailure → String
  | .decodeExhausted => "Could not decode CSV file with common encodings"
  | .other msg => msg

/-- `_read_csv`: the loop, with every escaping exception re-raised as
`ValueError(f"Failed to read CSV file: {e}")`. -/
def read_csv (attempt : Encoding → Attempt) : Except String RawTable :=
  match tryEncodings attempt encodingCandidates with
  | .ok t => .ok t
  | .error f => .error ("Failed to read CSV file: " ++ readFailureMessage f)

/-! ### Byte-level codecs

A file is a list of bytes.  `latin-1` maps every byte to the code point of
the same value and therefore never fails; `utf-8` and `cp1252` are partial. -/

/-- Decode one byte as latin-1 (total: every byte is a valid code point). -/
def latin1DecodeByte (b : Fin 256) : Char := Char.ofNat b.val

/-- latin-1 decoding of a whole file never fails. -/
def latin1Decode (bs : List (Fin 256)) : List Char := bs.map latin1DecodeByte

/-- Bytes with no assigned character in cp1252 (`UnicodeDecodeError`). -/
def cp1252Undefined : List Nat := [0x81, 0x8D, 0x8F, 0x90, 0x9D]

/-- The cp1252 mapping for the 0x80–0x9F block that differs from latin-1. -/
def cp1252Special (v : Nat) : Nat :=
  if v = 0x80 then 0x20AC else if v = 0x82 then 0x201A else
  if v = 0x83 then 0x192 else if v = 0x84 then 0x201E else
  if v = 0x85 then 0x2026 else if v = 0x86 then 0x2020 else
  if v = 0x87 then 0x2021 else if v = 0x88 then 0x2C6 else
  if v = 0x89 then 0x2030 else if v = 0x8A then 0x160 else
  if v = 0x8B then 0x2039 else if v = 0x8C then 0x152 else
  if v = 0x8E then 0x17D else if v = 0x91 then 0x2018 else
  if v = 0x92 then 0x2019 else if v = 0x93 then 0x201C else
  if v = 0x94 then 0x201D else if v = 0x95 then 0x2022 else
  if v = 0x96 then 0x2013 else if v = 0x97 then 0x2014 else
  if v = 0x98 then 0x2DC else if v = 0x99 then 0x2122 else
  if v = 0x9A then 0x161 else if v = 0x9B then 0x203A else
  if v = 0x9C then 0x153 else if v = 0x9E then 0x17E else
  if v = 0x9F then 0x178 else v

def cp1252DecodeByte (b : Fin 256) : Option Char :=
  if b.val ∈ cp1252Undefined then none
  else if 0x80 ≤ b.val ∧ b.val ≤ 0x9F then some (Char.ofNat (cp1252Special b.val))
  else some (Char.ofNat b.val)

def cp1252Decode (bs : List (Fin 256)) : Option (List Char) :=
  bs.mapM cp1252DecodeByte

/-- Is a byte a UTF-8 continuation byte (`10xxxxxx`)? -/
def isCont (b : Fin 256) : Bool := 0x80 ≤ b.val && b.val ≤ 0xBF

/-- Strict UTF-8 decoding (overlong forms, surrogates and values above
`U+10FFFF` are rejected, as in Python's `utf-8` codec). -/
def utf8Decode : List (Fin 256) → Option (List Char)
  | [] => some []
  | b :: rest =>
      let v := b.val
      if v < 0x80 then
        (utf8Decode rest).map (fun cs => Char.ofNat v :: cs)
      else if v < 0xC2 then none
      else if v < 0xE0 then
        match rest with
        | c1 :: rest' =>
            if isCont c1 then
              (utf8Decode rest').map
                (fun cs => Char.ofNat ((v - 0xC0) * 0x40 + (c1.val - 0x80)) :: cs)
            else none
        | _ => none
      else if v < 0xF0 then
        match rest with
        | c1 :: c2 :: rest' =>
            if isCont c1 && isCont c2 &&
                (v ≠ 0xE0 || 0xA0 ≤ c1.val) && (v ≠ 0xED || c1.val ≤ 0x9F) then
              (utf8Decode rest').map
                (fun cs =>
                  Char.ofNat ((v - 0xE0) * 0x1000 + (c1.val - 0x80) * 0x40 + (c2.val - 0x80)) :: cs)
            else none
        | _ => none
      else if v ≤ 0xF4 then
        match rest with
        | c1 :: c2 :: c3 :: rest' =>
            if isCont c1 && isCont c2 && isCont c3 &&
                (v ≠ 0xF0 || 0x90 ≤ c1.val) && (v ≠ 0xF4 || c1.val ≤ 0x8F) then
              (utf8Decode rest').map
                (fun cs =>
                  Char.ofNat ((v - 0xF0) * 0x40000 + (c1.val - 0x80) * 0x1000 +
                    (c2.val - 0x80) * 0x40 + (c3.val - 0x80)) :: cs)
            else none
        | _ => none
      else none
termination_by l => l.length
decreasing_by all_goals simp_arith [List.length_cons]

def decodeWith : Encoding → List (Fin 256) → Option (List Char)
  | .utf8 => utf8Decode
  | .latin1 => fun bs => some (latin1Decode bs)
  | .cp1252 => cp1252Decode

/-- The outcome of the pandas CSV parser on already-decoded text: a table, or
a parse error (never a `UnicodeDecodeError`, decoding already happened). -/
inductive ParseOutcome
  | table (t : RawTable)
  | parseError (msg : String)
  deriving Repr

/-- One `pd.read_csv(..., encoding=e)` call on a concrete byte file, for a
given parser: decode first, then parse the decoded text. -/
def attemptOf (parse : List Char → ParseOutcome) (file : List (Fin 256)) (e : Encoding) :
    Attempt :=
  match decodeWith e file with
  | none => .unicodeError
  | some cs =>
      match parse cs with
      | .table t => .ok t
      | .parseError msg => .otherError msg

/-! ## Standalone validator (`CSVValidator.validate_csv_file`) -/

def REQUIRED_COLUMNS : List String :=
  ["review_id", "review_text", "review_sentence", "gpt4", "Gemini flash 2.5",
   "perplexity", "sentence_id"]

structure ValidationReport where
  valid : Bool
  missing_columns : List String
  total_columns : Nat
  total_rows : Int
  sample_data : List RawRow
  columns : List String
  error : Option String
  deriving DecidableEq, Repr

/-- The report of the `except` branch: invalid, the error text, and
zero/empty values for every other field. -/
def errorReport (msg : String) : ValidationReport :=
  ⟨false, [], 0, 0, [], [], some msg⟩

/-- `validate_csv_file`, given the outcome of the sample parse
(`pd.read_csv(..., nrows=5, sep=';', encoding='utf-8')`, so the table has at
most the first five rows) and the outcome of the line-count pass.  Any
exception from either yields the error report; otherwise the report carries
the missing-columns list (in required-column order), the column count,
`line count - 1` data rows, and the first three sample rows. -/
def validate_csv_file (parsed : Except String RawTable) (lineCount : Except String Nat) :
    ValidationReport :=
  match parsed with
  | .error msg => errorReport msg
  | .ok t =>
      match lineCount with
      | .error msg => errorReport msg
      | .ok n =>
          let sample := t.rows.take 5
          let missing := REQUIRED_COLUMNS.filter (fun c => !(t.cols.contains c))
          ⟨missing.length == 0, missing, t.cols.length, (n : Int) - 1,
           sample.take 3, t.cols, none⟩

/-! ## Counter accounting (claim C1 support) -/

theorem processRowStep_counts (acc : RunAcc) (ir : Nat × CleanRow) :
    (processRowStep acc ir).successful + (processRowStep acc ir).failed =
      acc.successful + acc.failed + 1 := by
  unfold processRowStep
  cases processSingleRow acc.store ir.2 <;> simp <;> omega

theorem foldl_processRowStep_counts (b : List (Nat × CleanRow)) : ∀ acc : RunAcc,
    (List.foldl processRowStep acc b).successful + (List.foldl processRowStep acc b).failed =
      acc.successful + acc.failed + b.length := by
  induction b with
  | nil => intro acc; simp
  | cons x t ih =>
      intro acc
      rw [List.foldl_cons, ih, processRowStep_counts]
      simp only [List.length_cons]
      omega

theorem processBatch_counts (acc : RunAcc) (k : Nat) (b : List (Nat × CleanRow)) :
    (processBatch acc k b).successful + (processBatch acc k b).failed =
      acc.successful + acc.failed + b.length := by
  unfold processBatch
  rw [foldl_processRowStep_counts]

theorem processBatches_counts (bs : List (List (Nat × CleanRow))) : ∀ (acc : RunAcc) (pos : Nat),
    (processBatches acc pos bs).successful + (processBatches acc pos bs).failed =
      acc.successful + acc.failed + (bs.map List.length).sum := by
  induction bs with
  | nil => intro acc pos; simp [processBatches]
  | cons b bs ih =>
      intro acc pos
      simp only [processBatches, List.map_cons, List.sum_cons]
      rw [ih, processBatch_counts]
      omega

theorem toBatchesAux_flatten {α : Type _} (n : Nat) (hn : n ≠ 0) :
    ∀ (fuel : Nat) (l : List α), l.length ≤ fuel → (toBatchesAux n fuel l).flatten = l := by
  intro fuel
  induction fuel with
  | zero =>
      intro l hl
      cases l with
      | nil => simp [toBatchesAux]
      | cons x xs => simp at hl
  | succ fuel ih =>
      intro l hl
      cases l with
      | nil => simp [toBatchesAux]
      | cons x xs =>
          rw [toBatchesAux, if_neg hn, List.flatten_cons, ih ((x :: xs).drop n) ?_]
          · exact List.take_append_drop n (x :: xs)
          · simp only [List.length_drop, List.length_cons]
            simp only [List.length_cons] at hl
            omega

theorem toBatches_flatten {α : Type _} (n : Nat) (hn : n ≠ 0) (l : List α) :
    (toBatches n l).flatten = l :=
  toBatchesAux_flatten n hn l.length l le_rfl

theorem toBatches_length_sum {α : Type _} (n : Nat) (hn : n ≠ 0) (l : List α) :
    ((toBatches n l).map List.length).sum = l.length := by
  have := congrArg List.length (toBatches_flatten n hn l)
  simpa [List.length_flatten] using this

/-- C1: for every ingestion run that reaches the `completed` status, the final
ledger counters satisfy `successful_rows + failed_rows = total_rows`, where
`total_rows` is the number of rows of the cleaned table: the batch loop
processes each cleaned row exactly once and each row increments exactly one of
the two counters. -/
theorem C1_completed_counts (S : Store) (log0 : UploadLog) (input : Except String RawTable)
    (h : (process_csv_file S log0 input).2.1.status = UploadStatus.completed) :
    (process_csv_file S log0 input).2.1.successful_rows +
        (process_csv_file S log0 input).2.1.failed_rows =
      (process_csv_file S log0 input).2.1.total_rows ∧
    ∀ t rows dropped, input = .ok t → clean_data t = .ok (rows, dropped) →
      (process_csv_file S log0 input).2.1.total_rows = rows.length := by
  cases input with
  | error msg => simp [process_csv_file, failRun] at h
  | ok t =>
      cases hc : clean_data t with
      | error msg => simp [process_csv_file, hc, failRun] at h
      | ok rd =>
          obtain ⟨rows, dropped⟩ := rd
          have hcount := processBatches_counts (toBatches 1000 rows)
            ⟨S, 0, 0, ["Successfully read CSV"] ++
              (if dropped > 0 then
                ["Dropped " ++ toString dropped ++ " rows with missing essential data"]
               else [])⟩ 0
          rw [toBatches_length_sum 1000 (by omega) rows] at hcount
          constructor
          · simp only [process_csv_file, hc]
            simpa using hcount
          · intro t' rows' dropped' ht hc'
            cases ht
            rw [hc] at hc'
            cases hc'
            simp only [process_csv_file, hc]

/-- Concrete instance of C1: a two-row file (one row fails on a null sentence
text, one succeeds) completes with `1 + 1 = 2 = total_rows`. -/
theorem C1_witness :
    (process_csv_file emptyStore initialUploadLog
        (.ok ⟨REQUIRED_COLUMNS,
          [⟨some "R1", some "T", some "nan", none, none, none, some "S1"⟩,
           ⟨some "R1", some "T", some "t", none, none, none, some "S2"⟩]⟩)).2.1.status =
      UploadStatus.completed ∧
    (process_csv_file emptyStore initialUploadLog
        (.ok ⟨REQUIRED_COLUMNS,
          [⟨some "R1", some "T", some "nan", none, none, none, some "S1"⟩,
           ⟨some "R1", some "T", some "t", none, none, none, some "S2"⟩]⟩)).2.1.successful_rows +
      (process_csv_file emptyStore initialUploadLog
        (.ok ⟨REQUIRED_COLUMNS,
          [⟨some "R1", some "T", some "nan", none, none, none, some "S1"⟩,
           ⟨some "R1", some "T", some "t", none, none, none, some "S2"⟩]⟩)).2.1.failed_rows =
      (process_csv_file emptyStore initialUploadLog
        (.ok ⟨REQUIRED_COLUMNS,
          [⟨some "R1", some "T", some "nan", none, none, none, some "S1"⟩,
           ⟨some "R1", some "T", some "t", none, none, none, some "S2"⟩]⟩)).2.1.total_rows :=
  ⟨by decide,
   (C1_completed_counts emptyStore initialUploadLog
      (.ok ⟨REQUIRED_COLUMNS,
        [⟨some "R1", some "T", some "nan", none, none, none, some "S1"⟩,
         ⟨some "R1", some "T", some "t", none, none, none, some "S2"⟩]⟩)
      (by decide)).1⟩

/-! ## Concrete inputs used by witnesses and counterexamples -/

/-- A one-row file matching the spec's worked example (`perplexity` blank). -/
def oneRowTable : RawTable :=
  ⟨REQUIRED_COLUMNS,
   [⟨some "R1", some "Great product", some "It works well", some "Positive",
     some "Positive", none, some "R1-S1"⟩]⟩

/-- A two-row file whose first row survives `dropna` but carries the literal
sentence text `nan`, which the normalizer nulls, making the row fail on the
NOT NULL sentence column; the second row is fully valid. -/
def mixedTable : RawTable :=
  ⟨REQUIRED_COLUMNS,
   [⟨some "R1", some "T", some "nan", none, none, none, some "S1"⟩,
    ⟨some "R1", some "T", some "t", none, none, none, some "S2"⟩]⟩

/-- C9: starting from a `pending` ledger, the persisted statuses follow
`pending → processing → (completed | failed)` with exactly one terminal
transition: the trace of saves is `processing, processing, completed` when the
row loop finishes (regardless of how many rows failed — a readable, cleanable
file always completes), or `processing, failed` when an exception escapes the
row loop, in which case the exception text is recorded as `error_message` and
the accumulated log is preserved; no save follows a terminal save. -/
theorem C9_ledger_state_machine (S : Store) (log0 : UploadLog)
    (input : Except String RawTable) (hp : log0.status = UploadStatus.pending) :
    ((log0 :: (process_csv_file S log0 input).2.2.1).map UploadLog.status =
        [UploadStatus.pending, .processing, .processing, .completed] ∨
      (log0 :: (process_csv_file S log0 input).2.2.1).map UploadLog.status =
        [UploadStatus.pending, .processing, .failed]) ∧
    ((∃ t rows dropped, input = .ok t ∧ clean_data t = .ok (rows, dropped)) →
      (process_csv_file S log0 input).2.1.status = UploadStatus.completed) ∧
    ((process_csv_file S log0 input).2.1.status = UploadStatus.failed →
      ∃ msg logs, (process_csv_file S log0 input).2.1.error_message = some msg ∧
        (process_csv_file S log0 input).2.1.processing_log = .failedLog msg logs) ∧
    (∀ L ∈ ((process_csv_file S log0 input).2.2.1).dropLast,
        L.status ≠ UploadStatus.completed ∧ L.status ≠ UploadStatus.failed) ∧
    ((process_csv_file S log0 input).2.2.1).getLast? =
      some (process_csv_file S log0 input).2.1 := by
  cases input with
  | error msg =>
      refine ⟨Or.inr ?_, ?_, ?_, ?_, ?_⟩ <;>
        simp_all [process_csv_file, failRun]
  | ok t =>
      cases hc : clean_data t with
      | error msg =>
          refine ⟨Or.inr ?_, ?_, ?_, ?_, ?_⟩
          · simp_all [process_csv_file, failRun]
          · rintro ⟨t', rows, dropped, ht, hclean⟩
            cases ht
            rw [hc] at hclean
            cases hclean
          · intro _
            exact ⟨msg, ["Successfully read CSV"],
                   by simp [process_csv_file, hc, failRun],
                   by simp [process_csv_file, hc, failRun]⟩
          · simp_all [process_csv_file, failRun, hc]
          · simp_all [process_csv_file, failRun, hc]
      | ok rd =>
          obtain ⟨rows, dropped⟩ := rd
          refine ⟨Or.inl ?_, ?_, ?_, ?_, ?_⟩
          · simp_all [process_csv_file, hc]
          · intro _
            simp [process_csv_file, hc]
          · intro hfail
            simp [process_csv_file, hc] at hfail
          · simp_all [process_csv_file, hc]
          · simp [process_csv_file, hc]

/-- Instance of C9 at a concrete run with one failed row: the trace is
`pending, processing, processing, completed` even though `failed_rows = 1`. -/
theorem C9_witness :
    ((initialUploadLog ::
        (process_csv_file emptyStore initialUploadLog (.ok mixedTable)).2.2.1).map
          UploadLog.status =
        [UploadStatus.pending, .processing, .processing, .completed] ∨
      (initialUploadLog ::
        (process_csv_file emptyStore initialUploadLog (.ok mixedTable)).2.2.1).map
          UploadLog.status =
        [UploadStatus.pending, .processing, .failed]) ∧
    (process_csv_file emptyStore initialUploadLog (.ok mixedTable)).2.1.failed_rows = 1 ∧
    (process_csv_file emptyStore initialUploadLog (.ok mixedTable)).2.1.status =
      UploadStatus.completed :=
  ⟨(C9_ledger_state_machine emptyStore initialUploadLog (.ok mixedTable) (by decide)).1,
   by decide, by decide⟩

/-- C7 counterexample: on a one-row file whose row succeeds, the final ledger
reports `successful_rows = 1`, yet both persisted snapshots taken before the
final save still carry `successful_rows = 0`: the row loop never writes the
running counters to the ledger, so a mid-run reader does not observe the
processed row. -/
theorem C7_counterexample :
    (process_csv_file emptyStore initialUploadLog (.ok oneRowTable)).2.1.successful_rows = 1 ∧
    ((process_csv_file emptyStore initialUploadLog (.ok oneRowTable)).2.2.1).dropLast.map
        UploadLog.successful_rows = [0, 0] ∧
    ¬ ∃ L ∈ (process_csv_file emptyStore initialUploadLog (.ok oneRowTable)).2.2.1,
        L.status = UploadStatus.processing ∧ L.successful_rows = 1 := by
  decide

/-- C7 (amended): the running `successful_rows`/`failed_rows` live only on the
processor instance during the row loop; every persisted ledger snapshot before
the final one still carries the initial counter values, and only the final
save reflects the run's totals. -/
theorem C7_amended_counters_persisted_once (S : Store) (log0 : UploadLog)
    (input : Except String RawTable) :
    (∀ L ∈ ((process_csv_file S log0 input).2.2.1).dropLast,
        L.successful_rows = log0.successful_rows ∧ L.failed_rows = log0.failed_rows) ∧
    ((process_csv_file S log0 input).2.2.1).getLast? =
      some (process_csv_file S log0 input).2.1 := by
  cases input with
  | error msg => simp [process_csv_file, failRun]
  | ok t =>
      cases hc : clean_data t with
      | error msg => simp [process_csv_file, hc, failRun]
      | ok rd =>
          obtain ⟨rows, dropped⟩ := rd
          simp [process_csv_file, hc]

/-- Instance of C7's amended statement at a concrete mid-run snapshot. -/
theorem C7_amended_witness :
    (⟨UploadStatus.processing, 0, 0, 0, none, ProcessingLog.empty⟩ : UploadLog).successful_rows =
        initialUploadLog.successful_rows ∧
    (⟨UploadStatus.processing, 0, 0, 0, none, ProcessingLog.empty⟩ : UploadLog).failed_rows =
        initialUploadLog.failed_rows :=
  (C7_amended_counters_persisted_once emptyStore initialUploadLog (.ok oneRowTable)).1
    ⟨UploadStatus.processing, 0, 0, 0, none, ProcessingLog.empty⟩ (by decide)

/-- C5: the reader tries the candidates in the fixed order utf-8, latin-1,
cp1252 and returns the table of the first attempt that parses (earlier
attempts having failed to decode); it raises the post-loop decoding error
`Could not decode CSV file with common encodings` if and only if every
candidate attempt fails with a `UnicodeDecodeError`.  In particular a file
that fails utf-8 decoding but parses under the second (or third) candidate is
returned successfully. -/
theorem C5_encoding_fallback (attempt : Encoding → Attempt) :
    (∀ t, attempt .utf8 = .ok t → tryEncodings attempt encodingCandidates = .ok t) ∧
    (∀ t, attempt .utf8 = .unicodeError → attempt .latin1 = .ok t →
      tryEncodings attempt encodingCandidates = .ok t) ∧
    (∀ t, attempt .utf8 = .unicodeError → attempt .latin1 = .unicodeError →
      attempt .cp1252 = .ok t → tryEncodings attempt encodingCandidates = .ok t) ∧
    (tryEncodings attempt encodingCandidates = .error .decodeExhausted ↔
      ∀ e : Encoding, attempt e = .unicodeError) := by
  refine ⟨?_, ?_, ?_, ?_, ?_⟩
  · intro t h
    simp [tryEncodings, encodingCandidates, h]
  · intro t h1 h2
    simp [tryEncodings, encodingCandidates, h1, h2]
  · intro t h1 h2 h3
    simp [tryEncodings, encodingCandidates, h1, h2, h3]
  · intro h e
    cases h1 : attempt .utf8 <;> cases h2 : attempt .latin1 <;> cases h3 : attempt .cp1252 <;>
      simp only [tryEncodings, encodingCandidates, h1, h2, h3] at h <;>
      first
      | (cases e <;> assumption)
      | simp at h
  · intro h
    simp [tryEncodings, encodingCandidates, h .utf8, h .latin1, h .cp1252]

/-- Instance of C5: a file whose utf-8 attempt raises `UnicodeDecodeError`
but whose latin-1 attempt parses is returned by the second candidate. -/
theorem C5_witness :
    tryEncodings
        (fun e => match e with
          | .utf8 => Attempt.unicodeError
          | .latin1 => Attempt.ok oneRowTable
          | .cp1252 => Attempt.unicodeError)
        encodingCandidates = .ok oneRowTable :=
  (C5_encoding_fallback
      (fun e => match e with
        | .utf8 => Attempt.unicodeError
        | .latin1 => Attempt.ok oneRowTable
        | .cp1252 => Attempt.unicodeError)).2.1 oneRowTable rfl rfl

/-- C10: latin-1 assigns a character to every byte, so on a concrete byte
file the second candidate never raises `UnicodeDecodeError`; hence the
encoding loop always ends within the first two candidates (a parsed table, or
a non-decoding parse error that propagates), the post-loop branch
`Could not decode CSV file with common encodings` is unreachable, and the
third candidate is never reached through a decoding failure. -/
theorem C10_second_candidate_total (parse : List Char → ParseOutcome)
    (file : List (Fin 256)) :
    attemptOf parse file .latin1 ≠ .unicodeError ∧
    tryEncodings (attemptOf parse file) encodingCandidates ≠
      .error .decodeExhausted ∧
    tryEncodings (attemptOf parse file) encodingCandidates =
      tryEncodings (attemptOf parse file) [.utf8, .latin1] ∧
    ((∃ t, tryEncodings (attemptOf parse file) encodingCandidates = .ok t) ∨
      (∃ msg, tryEncodings (attemptOf parse file) encodingCandidates =
        .error (.other msg))) := by
  have hl : attemptOf parse file .latin1 ≠ .unicodeError := by
    unfold attemptOf decodeWith
    cases h : parse (latin1Decode file) <;> simp [h]
  refine ⟨hl, ?_, ?_, ?_⟩
  · cases h1 : attemptOf parse file .utf8 <;>
      cases h2 : attemptOf parse file .latin1 <;>
      simp_all [tryEncodings, encodingCandidates]
  · cases h1 : attemptOf parse file .utf8 <;>
      cases h2 : attemptOf parse file .latin1 <;>
      simp_all [tryEncodings, encodingCandidates]
  · cases h1 : attemptOf parse file .utf8 <;>
      cases h2 : attemptOf parse file .latin1 <;>
      simp_all [tryEncodings, encodingCandidates]

/-- C6: the standalone validator is total and never raises — any parse or
line-count failure produces the invalid report carrying the error text and
zero/empty values for every other field — and a parseable file that has every
required column except `sentence_id` is reported invalid with
`missing_columns` equal to exactly `['sentence_id']`. -/
theorem C6_validator_report (parsed : Except String RawTable)
    (lineCount : Except String Nat) :
    (∀ msg, parsed = .error msg → validate_csv_file parsed lineCount = errorReport msg) ∧
    (∀ t msg, parsed = .ok t → lineCount = .error msg →
      validate_csv_file parsed lineCount = errorReport msg) ∧
    (∀ t n, parsed = .ok t → lineCount = .ok n →
      "sentence_id" ∉ t.cols →
      (∀ c ∈ REQUIRED_COLUMNS, c ≠ "sentence_id" → c ∈ t.cols) →
      (validate_csv_file parsed lineCount).valid = false ∧
      (validate_csv_file parsed lineCount).missing_columns = ["sentence_id"]) := by
  refine ⟨?_, ?_, ?_⟩
  · intro msg h
    subst h
    rfl
  · intro t msg hp hc
    subst hp
    subst hc
    rfl
  · intro t n hp hc hmiss hothers
    subst hp
    subst hc
    have h1 : "review_id" ∈ t.cols := hothers "review_id" (by decide) (by decide)
    have h2 : "review_text" ∈ t.cols := hothers "review_text" (by decide) (by decide)
    have h3 : "review_sentence" ∈ t.cols := hothers "review_sentence" (by decide) (by decide)
    have h4 : "gpt4" ∈ t.cols := hothers "gpt4" (by decide) (by decide)
    have h5 : "Gemini flash 2.5" ∈ t.cols := hothers "Gemini flash 2.5" (by decide) (by decide)
    have h6 : "perplexity" ∈ t.cols := hothers "perplexity" (by decide) (by decide)
    simp [validate_csv_file, REQUIRED_COLUMNS, List.filter, h1, h2, h3, h4, h5, h6, hmiss]

/-- Instance of C6: an unreadable file yields the zeroed error report, and a
six-column file lacking only `sentence_id` is invalid with exactly that
missing column. -/
theorem C6_witness :
    validate_csv_file (.error "no such file") (.ok 0) = errorReport "no such file" ∧
    (validate_csv_file
        (.ok ⟨["review_id", "review_text", "review_sentence", "gpt4",
               "Gemini flash 2.5", "perplexity"], []⟩)
        (.ok 4)).valid = false ∧
    (validate_csv_file
        (.ok ⟨["review_id", "review_text", "review_sentence", "gpt4",
               "Gemini flash 2.5", "perplexity"], []⟩)
        (.ok 4)).missing_columns = ["sentence_id"] :=
  ⟨(C6_validator_report (.error "no such file") (.ok 0)).1 "no such file" rfl,
   ((C6_validator_report
        (.ok ⟨["review_id", "review_text", "review_sentence", "gpt4",
               "Gemini flash 2.5", "perplexity"], []⟩) (.ok 4)).2.2 _ 4 rfl rfl
      (by decide) (by decide)).1,
   ((C6_validator_report
        (.ok ⟨["review_id", "review_text", "review_sentence", "gpt4",
               "Gemini flash 2.5", "perplexity"], []⟩) (.ok 4)).2.2 _ 4 rfl rfl
      (by decide) (by decide)).2⟩

/-- The normalizer's text-cell cleaning, written out: trim, then null exactly
the four literals `nan`, `NaN`, `null` and the empty string. -/
theorem cleanTextCell_eq (v : Option String) :
    cleanTextCell v =
      (if pyStrip (strCell v) = "nan" ∨ pyStrip (strCell v) = "NaN" ∨
          pyStrip (strCell v) = "null" ∨ pyStrip (strCell v) = "" then none
       else some (pyStrip (strCell v))) := by
  unfold cleanTextCell SENTINELS
  simp only [List.mem_cons, List.not_mem_nil, or_false]

/-- C8 counterexample: the cell `" NULL "` — a case variant of `null` — is
not mapped to null by the normalizer: the cleaned row keeps the trimmed text
`some "NULL"`, because the replacement list contains only the exact literals
`nan`, `NaN`, `null` and the empty string. -/
theorem C8_counterexample :
    "NULL".toList.map Char.toLower = "null".toList ∧
    clean_data
        ⟨REQUIRED_COLUMNS,
         [⟨some "R1", some " NULL ", some "s", none, none, none, some "S1"⟩]⟩ =
      .ok ([(0, ⟨"R1", some "NULL", some "s", none, none, none, "S1"⟩)], 0) ∧
    (some "NULL" : Option String) ≠ none := by
  decide

/-- C8 (amended): for every text-bearing column of a cleanable table (all
text columns present), the normalizer trims surrounding whitespace from each
value and maps exactly the literal sentinels `nan`, `NaN`, `null` and the
zero-length string (after trimming, a missing value rendering as `nan`) to
null; every other value — including other case variants such as `NULL` or
`NAN` — is kept as its trimmed text. -/
theorem C8_amended_exact_sentinels (t : RawTable) (rows : List (Nat × CleanRow))
    (dropped : Nat) (h : clean_data t = .ok (rows, dropped))
    (hcols : ∀ c ∈ REQUIRED_COLUMNS, c ∈ t.cols) :
    ∀ ir ∈ rows, ∃ raw ∈ t.rows,
      (ir.2.review_text =
        (if pyStrip (strCell raw.review_text) = "nan" ∨
            pyStrip (strCell raw.review_text) = "NaN" ∨
            pyStrip (strCell raw.review_text) = "null" ∨
            pyStrip (strCell raw.review_text) = "" then none
         else some (pyStrip (strCell raw.review_text)))) ∧
      (ir.2.review_sentence =
        (if pyStrip (strCell raw.review_sentence) = "nan" ∨
            pyStrip (strCell raw.review_sentence) = "NaN" ∨
            pyStrip (strCell raw.review_sentence) = "null" ∨
            pyStrip (strCell raw.review_sentence) = "" then none
         else some (pyStrip (strCell raw.review_sentence)))) ∧
      (ir.2.gpt4 =
        (if pyStrip (strCell raw.gpt4) = "nan" ∨ pyStrip (strCell raw.gpt4) = "NaN" ∨
            pyStrip (strCell raw.gpt4) = "null" ∨ pyStrip (strCell raw.gpt4) = "" then none
         else some (pyStrip (strCell raw.gpt4)))) ∧
      (ir.2.gemini =
        (if pyStrip (strCell raw.gemini) = "nan" ∨ pyStrip (strCell raw.gemini) = "NaN" ∨
            pyStrip (strCell raw.gemini) = "null" ∨ pyStrip (strCell raw.gemini) = "" then none
         else some (pyStrip (strCell raw.gemini)))) ∧
      (ir.2.perplexity =
        (if pyStrip (strCell raw.perplexity) = "nan" ∨
            pyStrip (strCell raw.perplexity) = "NaN" ∨
            pyStrip (strCell raw.perplexity) = "null" ∨
            pyStrip (strCell raw.perplexity) = "" then none
         else some (pyStrip (strCell raw.perplexity)))) := by
  intro ir hir
  have hrt : t.cols.contains "review_text" = true := by
    simpa using hcols "review_text" (by decide)
  have hg : t.cols.contains "gpt4" = true := by
    simpa using hcols "gpt4" (by decide)
  have hge : t.cols.contains "Gemini flash 2.5" = true := by
    simpa using hcols "Gemini flash 2.5" (by decide)
  have hpx : t.cols.contains "perplexity" = true := by
    simpa using hcols "perplexity" (by decide)
  have hess : essentialColumns.all (fun c => t.cols.contains c) = true := by
    have e1 : "review_id" ∈ t.cols := hcols "review_id" (by decide)
    have e2 : "review_sentence" ∈ t.cols := hcols "review_sentence" (by decide)
    have e3 : "sentence_id" ∈ t.cols := hcols "sentence_id" (by decide)
    simp [essentialColumns, e1, e2, e3]
  unfold clean_data at h
  rw [if_pos hess] at h
  simp only [Except.ok.injEq, Prod.mk.injEq] at h
  obtain ⟨hrows, _⟩ := h
  subst hrows
  rcases List.mem_map.mp hir with ⟨x, hxmem, hfx⟩
  have hxenum : x ∈ t.rows.enum := (List.mem_filter.mp hxmem).1
  have hraw : x.2 ∈ t.rows := by
    have := List.mem_map_of_mem Prod.snd hxenum
    rwa [List.enum_map_snd] at this
  subst hfx
  have hrtm : "review_text" ∈ t.cols := hcols "review_text" (by decide)
  have hgm : "gpt4" ∈ t.cols := hcols "gpt4" (by decide)
  have hgem : "Gemini flash 2.5" ∈ t.cols := hcols "Gemini flash 2.5" (by decide)
  have hpxm : "perplexity" ∈ t.cols := hcols "perplexity" (by decide)
  refine ⟨x.2, hraw, ?_, ?_, ?_, ?_, ?_⟩ <;>
    simp [cleanRowOf, hrt, hg, hge, hpx, hrtm, hgm, hgem, hpxm, cleanTextCell_eq]

/-- A one-row file exercising the exact-sentinel behaviour: a case-variant
sentinel with padding, padded ordinary text, and three blank-ish predictions
(`nan` literal, a missing cell, the empty string). -/
def sentinelTable : RawTable :=
  ⟨REQUIRED_COLUMNS,
   [⟨some "R1", some " NULL ", some " s ", some "nan", none, some "", some "S1"⟩]⟩

/-- The cleaned contents of `sentinelTable`: `NULL` survives as trimmed text,
the three blank-ish predictions become null. -/
def sentinelRows : List (Nat × CleanRow) :=
  [(0, ⟨"R1", some "NULL", some "s", none, none, none, "S1"⟩)]

/-- Instance of C8 (amended): on `sentinelTable` every cleaned cell equals
trim-then-null-exact-sentinels of the raw cell. -/
theorem C8_witness :
    clean_data sentinelTable = .ok (sentinelRows, 0) ∧
    (∀ c ∈ REQUIRED_COLUMNS, c ∈ sentinelTable.cols) ∧
    ∀ ir ∈ sentinelRows, ∃ raw ∈ sentinelTable.rows,
      (ir.2.review_text =
        (if pyStrip (strCell raw.review_text) = "nan" ∨
            pyStrip (strCell raw.review_text) = "NaN" ∨
            pyStrip (strCell raw.review_text) = "null" ∨
            pyStrip (strCell raw.review_text) = "" then none
         else some (pyStrip (strCell raw.review_text)))) ∧
      (ir.2.review_sentence =
        (if pyStrip (strCell raw.review_sentence) = "nan" ∨
            pyStrip (strCell raw.review_sentence) = "NaN" ∨
            pyStrip (strCell raw.review_sentence) = "null" ∨
            pyStrip (strCell raw.review_sentence) = "" then none
         else some (pyStrip (strCell raw.review_sentence)))) ∧
      (ir.2.gpt4 =
        (if pyStrip (strCell raw.gpt4) = "nan" ∨ pyStrip (strCell raw.gpt4) = "NaN" ∨
            pyStrip (strCell raw.gpt4) = "null" ∨ pyStrip (strCell raw.gpt4) = "" then none
         else some (pyStrip (strCell raw.gpt4)))) ∧
      (ir.2.gemini =
        (if pyStrip (strCell raw.gemini) = "nan" ∨ pyStrip (strCell raw.gemini) = "NaN" ∨
            pyStrip (strCell raw.gemini) = "null" ∨ pyStrip (strCell raw.gemini) = "" then none
         else some (pyStrip (strCell raw.gemini)))) ∧
      (ir.2.perplexity =
        (if pyStrip (strCell raw.perplexity) = "nan" ∨
            pyStrip (strCell raw.perplexity) = "NaN" ∨
            pyStrip (strCell raw.perplexity) = "null" ∨
            pyStrip (strCell raw.perplexity) = "" then none
         else some (pyStrip (strCell raw.perplexity)))) :=
  ⟨by decide, by decide,
   C8_amended_exact_sentinels sentinelTable sentinelRows 0 (by decide) (by decide)⟩

/-! ## Frame reasoning for predictions (claim C3 support) -/

/-- Filter stability under a map that only rewrites elements outside the
filter (and keeps them outside). -/
theorem filter_map_stable {α : Type _} (p : α → Bool) (f : α → α) (l : List α)
    (hf : ∀ x ∈ l, f x = x ∨ (p x = false ∧ p (f x) = false)) :
    (l.map f).filter p = l.filter p := by
  induction l with
  | nil => rfl
  | cons x xs ih =>
      have hx := hf x (by simp)
      have hxs : ∀ y ∈ xs, f y = y ∨ (p y = false ∧ p (f y) = false) :=
        fun y hy => hf y (by simp [hy])
      rcases hx with h | ⟨h1, h2⟩
      · by_cases hp : p x = true
        · simp [List.filter_cons, h, hp, ih hxs]
        · simp only [Bool.not_eq_true] at hp
          simp [List.filter_cons, h, hp, ih hxs]
      · simp [List.filter_cons, h1, h2, ih hxs]

theorem except_ok_bind {ε α β : Type _} (a : α) (f : α → Except ε β) :
    (Except.ok a >>= f : Except ε β) = f a := rfl

theorem except_pure {ε α : Type _} (a : α) : (pure a : Except ε α) = Except.ok a := rfl

theorem except_error_bind {ε α β : Type _} (e : ε) (f : α → Except ε β) :
    (Except.error e >>= f : Except ε β) = Except.error e := rfl

/-- The review stage touches only the `reviews` table. -/
theorem getOrCreateReview_frame (S : Store) (row : CleanRow) (S' : Store) (rev : Review)
    (h : getOrCreateReview S row = .ok (S', rev)) :
    S'.sentences = S.sentences ∧ S'.preds = S.preds := by
  unfold getOrCreateReview at h
  repeat' split at h
  all_goals simp only [Except.ok.injEq, Prod.mk.injEq, reduceCtorEq] at h
  all_goals obtain ⟨h1, h2⟩ := h
  all_goals subst h1
  all_goals exact ⟨rfl, rfl⟩

/-- The sentence stage touches only the `sentences` table, and the returned
sentence carries the row's natural key. -/
theorem getOrCreateSentence_frame (S : Store) (row : CleanRow) (S' : Store)
    (sn : ReviewSentence) (h : getOrCreateSentence S row = .ok (S', sn)) :
    S'.reviews = S.reviews ∧ S'.preds = S.preds ∧
      sn.review_id = row.review_id ∧ sn.sentence_id = row.sentence_id := by
  unfold getOrCreateSentence at h
  split at h
  · split at h
    · exact absurd h (by simp)
    · simp only [Except.ok.injEq, Prod.mk.injEq] at h
      obtain ⟨h1, h2⟩ := h
      subst h1
      subst h2
      exact ⟨rfl, rfl, rfl, rfl⟩
  · rename_i s0 hm
    split at h
    · simp only [Except.ok.injEq, Prod.mk.injEq] at h
      obtain ⟨h1, h2⟩ := h
      subst h1
      have hmem : s0 ∈ sentencesWith S row.review_id row.sentence_id := by
        rw [hm]; simp
      have hkeys := List.of_mem_filter hmem
      simp only [Bool.and_eq_true, beq_iff_eq] at hkeys
      exact ⟨rfl, rfl, h2 ▸ hkeys.1, h2 ▸ hkeys.2⟩
    · split at h
      · exact absurd h (by simp)
      · simp only [Except.ok.injEq, Prod.mk.injEq] at h
        obtain ⟨h1, h2⟩ := h
        subst h1
        subst h2
        exact ⟨rfl, rfl, rfl, rfl⟩
  · exact absurd h (by simp)

/-- One upsert at model `m₀` leaves the prediction records of every other
model `m` (at any key) untouched. -/
theorem upsertPrediction_other_model (S : Store) (rid sid : String) (m₀ : ModelName)
    (txt : String) (S' : Store) (h : upsertPrediction S rid sid m₀ txt = .ok S')
    (rid' sid' : String) (m : ModelName) (hne : m ≠ m₀) :
    predsWith S' rid' sid' m = predsWith S rid' sid' m := by
  have hm₀ : (m₀ == m) = false := by
    simp only [beq_eq_false_iff_ne, ne_eq]
    exact fun hmm => hne hmm.symm
  unfold upsertPrediction at h
  split at h
  · simp only [Except.ok.injEq] at h
    subst h
    unfold predsWith
    rw [List.filter_append]
    have hsg : List.filter
        (fun p => p.review_id == rid' && p.sentence_id == sid' && p.model_name == m)
        [(⟨rid, sid, m₀, txt, none⟩ : ModelPrediction)] = [] := by
      simp [List.filter_cons, hm₀]
    rw [hsg, List.append_nil]
  · simp only [Except.ok.injEq] at h
    subst h
    unfold predsWith
    apply filter_map_stable
    intro x _
    by_cases hg : (x.review_id == rid && x.sentence_id == sid && x.model_name == m₀) = true
    · right
      have hxm : x.model_name = m₀ := by
        simp only [Bool.and_eq_true, beq_iff_eq] at hg
        exact hg.2
      constructor
      · rw [Bool.eq_false_iff]
        intro htrue
        simp only [Bool.and_eq_true, beq_iff_eq] at htrue
        exact hne (htrue.2.symm.trans hxm)
      · rw [if_pos hg]
        rw [Bool.eq_false_iff]
        intro htrue
        simp only [Bool.and_eq_true, beq_iff_eq] at htrue
        exact hne (htrue.2.symm.trans hxm)
    · left
      rw [if_neg hg]
  · exact absurd h (by simp)

/-- Folding the per-model upserts over a model list in which model `m` only
occurs with a blank cell leaves `m`'s prediction records unchanged. -/
theorem foldlM_upserts_blank (rid sid : String) (m : ModelName) :
    ∀ (l : List (ModelName × Option String)),
      (∀ mp ∈ l, mp.1 = m → nonBlank mp.2 = false) →
      ∀ S S' : Store,
        l.foldlM
          (fun acc mp =>
            if nonBlank mp.2 then upsertPrediction acc rid sid mp.1 (mp.2.getD "")
            else .ok acc) S = .ok S' →
        predsWith S' rid sid m = predsWith S rid sid m := by
  intro l
  induction l with
  | nil =>
      intro _ S S' h
      cases h
      rfl
  | cons mp rest ih =>
      intro hl S S' h
      rw [List.foldlM_cons] at h
      by_cases hb : nonBlank mp.2 = true
      · rw [if_pos hb] at h
        cases hu : upsertPrediction S rid sid mp.1 (mp.2.getD "") with
        | error e =>
            rw [hu, except_error_bind] at h
            exact Except.noConfusion h
        | ok S1 =>
            rw [hu, except_ok_bind] at h
            have hne : m ≠ mp.1 := by
              intro hmm
              have := hl mp (by simp) hmm.symm
              rw [this] at hb
              cases hb
            rw [ih (fun q hq => hl q (by simp [hq])) S1 S' h]
            exact upsertPrediction_other_model S rid sid mp.1 _ S1 hu rid sid m hne
      · rw [if_neg hb, except_ok_bind] at h
        exact ih (fun q hq => hl q (by simp [hq])) S S' h

/-- C3: for every row and every model, if the row's prediction cell for that
model is null, empty, or whitespace-only after trimming, then processing the
row neither creates nor modifies the `ModelPrediction` record keyed by the
row's sentence and that model: the stored records for that key are exactly
the same records as before (in particular none is created on first
encounter); a failed row rolls back entirely and also leaves them unchanged. -/
theorem C3_blank_prediction_noop (S : Store) (row : CleanRow) (m : ModelName)
    (h : nonBlank (predOf row m) = false) :
    predsWith (stepStore S row) row.review_id row.sentence_id m =
      predsWith S row.review_id row.sentence_id m := by
  cases hp : processSingleRow S row with
  | error e =>
      unfold stepStore
      rw [hp]
  | ok S' =>
      have hstep : stepStore S row = S' := by
        unfold stepStore
        rw [hp]
      rw [hstep]
      unfold processSingleRow at hp
      split at hp
      · exact Except.noConfusion hp
      · rename_i S1 rev h1
        split at hp
        · exact Except.noConfusion hp
        · rename_i S2 sn h2
          have hf1 := getOrCreateReview_frame S row S1 rev h1
          have hf2 := getOrCreateSentence_frame S1 row S2 sn h2
          have hmodel : ∀ mp ∈ modelData row, mp.1 = m → nonBlank mp.2 = false := by
            intro mp hmp hmpm
            have : mp = (ModelName.gpt4, row.gpt4) ∨ mp = (ModelName.gemini, row.gemini) ∨
                mp = (ModelName.perplexity, row.perplexity) := by
              simpa [modelData] using hmp
            rcases this with rfl | rfl | rfl <;>
              · subst hmpm
                simpa [predOf] using h
          have hfold := foldlM_upserts_blank sn.review_id sn.sentence_id m
            (modelData row) (fun mp hmp hmpm => hmodel mp hmp hmpm) S2 S' hp
          rw [hf2.2.2.1, hf2.2.2.2] at hfold
          rw [hfold]
          unfold predsWith
          rw [hf2.2.1, hf1.2]
/-- Instance of C3: a row whose `perplexity` cell is null leaves a previously
stored perplexity prediction for its sentence byte-for-byte unchanged. -/
theorem C3_witness :
    predsWith
        (stepStore
          ⟨[⟨"R1", "T"⟩],
           [⟨"R1", "S1", "old sentence", none, none, some "old"⟩],
           [⟨"R1", "S1", ModelName.perplexity, "old", none⟩]⟩
          ⟨"R1", some "T", some "new sentence", some "Positive", none, none, "S1"⟩)
        "R1" "S1" ModelName.perplexity =
      predsWith
        ⟨[⟨"R1", "T"⟩],
         [⟨"R1", "S1", "old sentence", none, none, some "old"⟩],
         [⟨"R1", "S1", ModelName.perplexity, "old", none⟩]⟩
        "R1" "S1" ModelName.perplexity ∧
    predsWith
        ⟨[⟨"R1", "T"⟩],
         [⟨"R1", "S1", "old sentence", none, none, some "old"⟩],
         [⟨"R1", "S1", ModelName.perplexity, "old", none⟩]⟩
        "R1" "S1" ModelName.perplexity =
      [⟨"R1", "S1", ModelName.perplexity, "old", none⟩] :=
  ⟨C3_blank_prediction_noop
      ⟨[⟨"R1", "T"⟩],
       [⟨"R1", "S1", "old sentence", none, none, some "old"⟩],
       [⟨"R1", "S1", ModelName.perplexity, "old", none⟩]⟩
      ⟨"R1", some "T", some "new sentence", some "Positive", none, none, "S1"⟩
      ModelName.perplexity (by decide),
   by decide⟩

/-! ## Write semantics of one row (claims C2/C4 support)

For a valid row (non-empty review text, non-null sentence text) processing is
an overwrite: each of the three tables is value-updated at the row's keys and
extended with the records whose keys were absent. -/

/-- Map that fixes every element of the list. -/
theorem map_id_on {α : Type _} (f : α → α) (l : List α) (h : ∀ x ∈ l, f x = x) :
    l.map f = l := by
  induction l with
  | nil => rfl
  | cons x xs ih =>
      rw [List.map_cons, h x (by simp), ih (fun y hy => h y (by simp [hy]))]

/-- A keyed filter over a list with `Nodup` keys returns exactly the one
element carrying the key. -/
theorem filter_pred_eq_singleton {α κ : Type _} (key : α → κ) (p : α → Bool) (k : κ)
    (hp : ∀ x, p x = true ↔ key x = k) (l : List α)
    (h : (l.map key).Nodup) (a : α) (ha : a ∈ l) (hk : key a = k) :
    l.filter p = [a] := by
  induction l with
  | nil => cases ha
  | cons b t ih =>
      simp only [List.map_cons, List.nodup_cons] at h
      rcases List.mem_cons.mp ha with rfl | hat
      · rw [List.filter_cons, if_pos ((hp a).mpr hk)]
        have ht : t.filter p = [] := by
          apply List.filter_eq_nil_iff.mpr
          intro x hx hpx
          exact h.1 (hk ▸ (hp x).mp hpx ▸ List.mem_map_of_mem key hx)
        rw [ht]
      · have hbk : ¬ p b = true := by
          intro hpb
          exact h.1 ((hp b).mp hpb ▸ hk ▸ List.mem_map_of_mem key hat)
        rw [List.filter_cons, if_neg hbk]
        exact ih h.2 hat

/-- A keyed filter over a list in which no element carries the key is empty. -/
theorem filter_pred_eq_nil {α κ : Type _} (key : α → κ) (p : α → Bool) (k : κ)
    (hp : ∀ x, p x = true ↔ key x = k) (l : List α) (h : ∀ a ∈ l, key a ≠ k) :
    l.filter p = [] := by
  apply List.filter_eq_nil_iff.mpr
  intro x hx hpx
  exact h x hx ((hp x).mp hpx)

/-- The review text a valid row writes (`row['review_text']`). -/
def rtxt (r : CleanRow) : String := r.review_text.getD ""

/-- The sentence text a valid row writes (`row['review_sentence']`). -/
def rstxt (r : CleanRow) : String := r.review_sentence.getD ""

/-- A cleaned row on which `_process_single_row` cannot hit a NOT NULL
violation: truthy review text and non-null sentence text. -/
def validRow (r : CleanRow) : Prop :=
  pyTruthy r.review_text = true ∧ r.review_sentence.isSome = true

instance (r : CleanRow) : Decidable (validRow r) := by
  unfold validRow
  infer_instance

/-- Value update of the `reviews` table by one row. -/
def updR (r : CleanRow) (q : Review) : Review :=
  if q.review_id == r.review_id then ⟨q.review_id, rtxt r⟩ else q

/-- Value update of the `sentences` table by one row. -/
def updS (r : CleanRow) (q : ReviewSentence) : ReviewSentence :=
  if q.review_id == r.review_id && q.sentence_id == r.sentence_id then
    sentenceOf r (rstxt r)
  else q

/-- Value update of one model's prediction record by one upsert. -/
def updP1 (rid sid : String) (m : ModelName) (txt : String) (p : ModelPrediction) :
    ModelPrediction :=
  if p.review_id == rid && p.sentence_id == sid && p.model_name == m then
    ⟨p.review_id, p.sentence_id, p.model_name, txt, none⟩
  else p

/-- Value update of the `model_predictions` table by one row: every record at
the row's sentence key whose model has a non-blank cell gets that cell's
text and a null confidence. -/
def updP (r : CleanRow) (p : ModelPrediction) : ModelPrediction :=
  if p.review_id == r.review_id && p.sentence_id == r.sentence_id &&
      nonBlank (predOf r p.model_name) then
    ⟨p.review_id, p.sentence_id, p.model_name, (predOf r p.model_name).getD "", none⟩
  else p

def reviewKeyExists (S : Store) (rid : String) : Prop :=
  ∃ q ∈ S.reviews, q.review_id = rid

def sentenceKeyExists (S : Store) (rid sid : String) : Prop :=
  ∃ q ∈ S.sentences, q.review_id = rid ∧ q.sentence_id = sid

def predKeyExists (S : Store) (rid sid : String) (m : ModelName) : Prop :=
  ∃ p ∈ S.preds, p.review_id = rid ∧ p.sentence_id = sid ∧ p.model_name = m

instance (S : Store) (rid : String) : Decidable (reviewKeyExists S rid) := by
  unfold reviewKeyExists
  infer_instance

instance (S : Store) (rid sid : String) : Decidable (sentenceKeyExists S rid sid) := by
  unfold sentenceKeyExists
  infer_instance

instance (S : Store) (rid sid : String) (m : ModelName) :
    Decidable (predKeyExists S rid sid m) := by
  unfold predKeyExists
  infer_instance

/-- All keys the row writes already have records. -/
def keysExist (r : CleanRow) (S : Store) : Prop :=
  reviewKeyExists S r.review_id ∧
  sentenceKeyExists S r.review_id r.sentence_id ∧
  ∀ m, nonBlank (predOf r m) = true → predKeyExists S r.review_id r.sentence_id m

/-- The review record a row creates (none when the id already has one). -/
def createdReviews (r : CleanRow) (S : Store) : List Review :=
  if reviewKeyExists S r.review_id then [] else [⟨r.review_id, rtxt r⟩]

/-- The sentence record a row creates (none when the pair already has one). -/
def createdSentences (r : CleanRow) (S : Store) : List ReviewSentence :=
  if sentenceKeyExists S r.review_id r.sentence_id then [] else [sentenceOf r (rstxt r)]

/-- The per-model prediction records a row creates, in model order: one for
each model with a non-blank cell whose key has no record yet. -/
def createdPreds (r : CleanRow) (S : Store) : List ModelPrediction :=
  ([ModelName.gpt4, ModelName.gemini, ModelName.perplexity].filter
      (fun m => nonBlank (predOf r m) &&
        !(decide (predKeyExists S r.review_id r.sentence_id m)))).map
    (fun m => ⟨r.review_id, r.sentence_id, m, (predOf r m).getD "", none⟩)

/-- Unpack a truthy optional string. -/
theorem pyTruthy_some (v : Option String) (hv : pyTruthy v = true) :
    ∃ t, v = some t ∧ t ≠ "" := by
  cases hv' : v with
  | none => rw [hv'] at hv; simp [pyTruthy] at hv
  | some s =>
      rw [hv'] at hv
      simp only [pyTruthy, ne_eq, decide_not] at hv
      exact ⟨s, rfl, by simpa using hv⟩

/-- On a well-keyed store, the review stage of a valid row is exactly the
value update `updR` plus the created record. -/
theorem getOrCreateReview_write (S : Store) (r : CleanRow)
    (hwf : (S.reviews.map (fun q => q.review_id)).Nodup)
    (hv : pyTruthy r.review_text = true) :
    ∃ rev, getOrCreateReview S r =
      .ok (⟨S.reviews.map (updR r) ++ createdReviews r S, S.sentences, S.preds⟩, rev) := by
  obtain ⟨t, hrt, htne⟩ := pyTruthy_some r.review_text hv
  have hrtxt : rtxt r = t := by simp [rtxt, hrt]
  have hvt : pyTruthy (some t) = true := by simp [pyTruthy, htne]
  by_cases hex : reviewKeyExists S r.review_id
  · obtain ⟨a, ha, hak⟩ := hex
    have hfilter : reviewsWith S r.review_id = [a] :=
      filter_pred_eq_singleton (fun q => q.review_id) _ r.review_id
        (by intro x; simp) S.reviews hwf a ha hak
    have hcreated : createdReviews r S = [] := by
      unfold createdReviews
      rw [if_pos ⟨a, ha, hak⟩]
    by_cases hne : a.review_text = t
    · refine ⟨a, ?_⟩
      unfold getOrCreateReview
      rw [hfilter]
      simp only [hrt, hvt, eq_self_iff_true, if_true]
      rw [if_neg (by simp [hne])]
      rw [hcreated, List.append_nil]
      have hmap : S.reviews.map (updR r) = S.reviews := by
        apply map_id_on
        intro x hx
        unfold updR
        by_cases hxk : (x.review_id == r.review_id) = true
        · rw [if_pos hxk]
          have hxa : x = a := by
            have hxmem : x ∈ reviewsWith S r.review_id := by
              unfold reviewsWith
              exact List.mem_filter.mpr ⟨hx, hxk⟩
            rw [hfilter] at hxmem
            simpa using hxmem
          subst hxa
          rw [hrtxt, ← hne]
        · rw [if_neg hxk]
      rw [hmap]
    · refine ⟨⟨a.review_id, t⟩, ?_⟩
      unfold getOrCreateReview
      rw [hfilter]
      simp only [hrt, hvt, eq_self_iff_true, if_true]
      rw [if_pos hne]
      rw [hcreated, List.append_nil]
      have hmap : (S.reviews.map fun q =>
          if q.review_id == r.review_id then ⟨q.review_id, t⟩ else q) =
          S.reviews.map (updR r) := by
        apply List.map_congr_left
        intro x _
        unfold updR
        rw [hrtxt]
      rw [hmap]
  · have hfilter : reviewsWith S r.review_id = [] :=
      filter_pred_eq_nil (fun q => q.review_id) _ r.review_id
        (by intro x; simp) S.reviews
        (fun a ha hak => hex ⟨a, ha, hak⟩)
    have hcreated : createdReviews r S = [⟨r.review_id, rtxt r⟩] := by
      unfold createdReviews
      rw [if_neg hex]
    refine ⟨⟨r.review_id, t⟩, ?_⟩
    unfold getOrCreateReview
    rw [hfilter]
    simp only [hrt]
    rw [hcreated, hrtxt]
    have hmap : S.reviews.map (updR r) = S.reviews := by
      apply map_id_on
      intro x hx
      unfold updR
      rw [if_neg ?_]
      intro hxk
      exact hex ⟨x, hx, by simpa using hxk⟩
    rw [hmap]

/-- On a well-keyed store, the sentence stage of a row with non-null sentence
text is exactly the value update `updS` plus the created record, and returns
the row's canonical sentence record. -/
theorem getOrCreateSentence_write (S : Store) (r : CleanRow)
    (hwf : (S.sentences.map (fun q => (q.review_id, q.sentence_id))).Nodup)
    (hv : r.review_sentence.isSome = true) :
    getOrCreateSentence S r =
      .ok (⟨S.reviews, S.sentences.map (updS r) ++ createdSentences r S, S.preds⟩,
           sentenceOf r (rstxt r)) := by
  obtain ⟨txt, hrs⟩ := Option.isSome_iff_exists.mp hv
  have hrstxt : rstxt r = txt := by simp [rstxt, hrs]
  have hp : ∀ x : ReviewSentence,
      (x.review_id == r.review_id && x.sentence_id == r.sentence_id) = true ↔
      (x.review_id, x.sentence_id) = (r.review_id, r.sentence_id) := by
    intro x
    simp [Prod.ext_iff]
  by_cases hex : sentenceKeyExists S r.review_id r.sentence_id
  · obtain ⟨s0, hs0, hk⟩ := hex
    have hfilter : sentencesWith S r.review_id r.sentence_id = [s0] :=
      filter_pred_eq_singleton (fun q => (q.review_id, q.sentence_id)) _
        (r.review_id, r.sentence_id) hp S.sentences hwf s0 hs0
        (by simp [hk.1, hk.2])
    have hcreated : createdSentences r S = [] := by
      unfold createdSentences
      rw [if_pos ⟨s0, hs0, hk⟩]
    by_cases hch : some s0.review_sentence = r.review_sentence ∧
        s0.gpt4_prediction = r.gpt4 ∧ s0.gemini_prediction = r.gemini ∧
        s0.perplexity_prediction = r.perplexity
    · have hsn : sentenceOf r (rstxt r) = s0 := by
        obtain ⟨c1, c2, c3, c4⟩ := hch
        rw [hrs] at c1
        obtain ⟨hk1, hk2⟩ := hk
        unfold sentenceOf
        rw [hrstxt]
        cases s0
        simp_all
      unfold getOrCreateSentence
      simp only [hfilter]
      rw [if_pos hch]
      rw [hcreated, List.append_nil]
      have hmap : S.sentences.map (updS r) = S.sentences := by
        apply map_id_on
        intro x hx
        unfold updS
        by_cases hxk : (x.review_id == r.review_id && x.sentence_id == r.sentence_id) = true
        · rw [if_pos hxk]
          have hxa : x = s0 := by
            have hxmem : x ∈ sentencesWith S r.review_id r.sentence_id :=
              List.mem_filter.mpr ⟨hx, hxk⟩
            rw [hfilter] at hxmem
            simpa using hxmem
          rw [hsn, hxa]
        · rw [if_neg hxk]
      rw [hmap, hsn]
    · unfold getOrCreateSentence
      simp only [hfilter]
      rw [if_neg hch]
      simp only [hrs]
      rw [hcreated, List.append_nil]
      have hmap : (S.sentences.map fun q =>
          if q.review_id == r.review_id && q.sentence_id == r.sentence_id then
            sentenceOf r txt
          else q) = S.sentences.map (updS r) := by
        apply List.map_congr_left
        intro x _
        unfold updS
        rw [hrstxt]
      rw [hmap, hrstxt]
  · have hfilter : sentencesWith S r.review_id r.sentence_id = [] :=
      filter_pred_eq_nil (fun q => (q.review_id, q.sentence_id)) _
        (r.review_id, r.sentence_id) hp S.sentences
        (by
          intro a ha hak
          exact hex ⟨a, ha, by simpa [Prod.ext_iff] using hak⟩)
    have hcreated : createdSentences r S = [sentenceOf r (rstxt r)] := by
      unfold createdSentences
      rw [if_neg hex]
    unfold getOrCreateSentence
    simp only [hfilter]
    simp only [hrs]
    rw [hcreated, hrstxt]
    have hmap : S.sentences.map (updS r) = S.sentences := by
      apply map_id_on
      intro x hx
      unfold updS
      rw [if_neg ?_]
      intro hxk
      exact hex ⟨x, hx, by simpa [Prod.ext_iff] using (hp x).mp hxk⟩
    rw [hmap]

/-- List-level form of `predKeyExists`. -/
def predKeyIn (P : List ModelPrediction) (rid sid : String) (m : ModelName) : Prop :=
  ∃ p ∈ P, p.review_id = rid ∧ p.sentence_id = sid ∧ p.model_name = m

instance (P : List ModelPrediction) (rid sid : String) (m : ModelName) :
    Decidable (predKeyIn P rid sid m) := by
  unfold predKeyIn
  infer_instance

theorem predKeyExists_eq_predKeyIn (S : Store) (rid sid : String) (m : ModelName) :
    predKeyExists S rid sid m = predKeyIn S.preds rid sid m := rfl

/-- The table update of one prediction step: the upsert's value update when
the cell is non-blank, the identity otherwise. -/
def stepUpd (rid sid : String) (m : ModelName) (v : Option String)
    (p : ModelPrediction) : ModelPrediction :=
  if nonBlank v then updP1 rid sid m (v.getD "") p else p

/-- The records created by one prediction step. -/
def stepCreated (rid sid : String) (m : ModelName) (v : Option String)
    (P : List ModelPrediction) : List ModelPrediction :=
  if nonBlank v ∧ ¬ predKeyIn P rid sid m then [⟨rid, sid, m, v.getD "", none⟩] else []

theorem updP1_key (rid sid : String) (m : ModelName) (txt : String) (p : ModelPrediction) :
    ((updP1 rid sid m txt p).review_id, (updP1 rid sid m txt p).sentence_id,
      (updP1 rid sid m txt p).model_name) =
    (p.review_id, p.sentence_id, p.model_name) := by
  unfold updP1
  split <;> rfl

theorem stepUpd_key (rid sid : String) (m : ModelName) (v : Option String)
    (p : ModelPrediction) :
    ((stepUpd rid sid m v p).review_id, (stepUpd rid sid m v p).sentence_id,
      (stepUpd rid sid m v p).model_name) =
    (p.review_id, p.sentence_id, p.model_name) := by
  unfold stepUpd
  split
  · exact updP1_key rid sid m (v.getD "") p
  · rfl

/-- Key-preserving maps keep the key list (hence `Nodup` and key existence). -/
theorem map_key_of_key_preserving {α κ : Type _} (key : α → κ) (f : α → α)
    (hf : ∀ p, key (f p) = key p) (l : List α) :
    (l.map f).map key = l.map key := by
  rw [List.map_map]
  exact List.map_congr_left (fun x _ => hf x)

theorem predKeyIn_map (P : List ModelPrediction) (f : ModelPrediction → ModelPrediction)
    (hf : ∀ p, ((f p).review_id, (f p).sentence_id, (f p).model_name) =
      (p.review_id, p.sentence_id, p.model_name))
    (rid sid : String) (m : ModelName) :
    predKeyIn (P.map f) rid sid m ↔ predKeyIn P rid sid m := by
  unfold predKeyIn
  constructor
  · rintro ⟨p, hp, hk⟩
    rcases List.mem_map.mp hp with ⟨q, hq, rfl⟩
    have := hf q
    simp only [Prod.mk.injEq] at this
    exact ⟨q, hq, this.1 ▸ hk.1, this.2.1 ▸ hk.2.1, this.2.2 ▸ hk.2.2⟩
  · rintro ⟨p, hp, hk⟩
    have hfp := hf p
    simp only [Prod.mk.injEq] at hfp
    refine ⟨f p, List.mem_map_of_mem f hp, ?_, ?_, ?_⟩
    · rw [hfp.1]; exact hk.1
    · rw [hfp.2.1]; exact hk.2.1
    · rw [hfp.2.2]; exact hk.2.2

theorem predKeyIn_append (P C : List ModelPrediction) (rid sid : String) (m : ModelName) :
    predKeyIn (P ++ C) rid sid m ↔ predKeyIn P rid sid m ∨ predKeyIn C rid sid m := by
  unfold predKeyIn
  constructor
  · rintro ⟨p, hp, hk⟩
    rcases List.mem_append.mp hp with h | h
    · exact Or.inl ⟨p, h, hk⟩
    · exact Or.inr ⟨p, h, hk⟩
  · rintro (⟨p, hp, hk⟩ | ⟨p, hp, hk⟩)
    · exact ⟨p, List.mem_append.mpr (Or.inl hp), hk⟩
    · exact ⟨p, List.mem_append.mpr (Or.inr hp), hk⟩

/-- One prediction step (upsert-if-non-blank) on a well-keyed prediction
table is the value update plus the created record. -/
theorem predStep_write (rid sid : String) (m : ModelName) (v : Option String) (S' : Store)
    (hwf : ((S'.preds.map (fun p => (p.review_id, p.sentence_id, p.model_name)))).Nodup) :
    (if nonBlank v then upsertPrediction S' rid sid m (v.getD "") else .ok S') =
      .ok ⟨S'.reviews, S'.sentences,
           S'.preds.map (stepUpd rid sid m v) ++ stepCreated rid sid m v S'.preds⟩ := by
  have hp : ∀ x : ModelPrediction,
      (x.review_id == rid && x.sentence_id == sid && x.model_name == m) = true ↔
      (x.review_id, x.sentence_id, x.model_name) = (rid, sid, m) := by
    intro x
    simp [Prod.ext_iff, and_assoc]
  by_cases hb : nonBlank v = true
  · rw [if_pos hb]
    have hstep : S'.preds.map (stepUpd rid sid m v) =
        S'.preds.map (updP1 rid sid m (v.getD "")) :=
      List.map_congr_left (fun x _ => by unfold stepUpd; rw [if_pos hb])
    by_cases hex : predKeyIn S'.preds rid sid m
    · obtain ⟨p0, hp0, hk⟩ := hex
      have hfilter : predsWith S' rid sid m = [p0] :=
        filter_pred_eq_singleton (fun p => (p.review_id, p.sentence_id, p.model_name)) _
          (rid, sid, m) hp S'.preds hwf p0 hp0 (by simp [hk.1, hk.2.1, hk.2.2])
      have hcr : stepCreated rid sid m v S'.preds = [] := by
        unfold stepCreated
        rw [if_neg (by intro hc; exact hc.2 ⟨p0, hp0, hk⟩)]
      unfold upsertPrediction
      simp only [hfilter]
      rw [hcr, List.append_nil, hstep]
      rfl
    · have hfilter : predsWith S' rid sid m = [] :=
        filter_pred_eq_nil (fun p => (p.review_id, p.sentence_id, p.model_name)) _
          (rid, sid, m) hp S'.preds
          (by
            intro a ha hak
            refine hex ⟨a, ha, ?_⟩
            simpa [Prod.ext_iff] using hak)
      have hcr : stepCreated rid sid m v S'.preds = [⟨rid, sid, m, v.getD "", none⟩] := by
        unfold stepCreated
        rw [if_pos ⟨hb, hex⟩]
      unfold upsertPrediction
      simp only [hfilter]
      rw [hcr, hstep]
      have hmap : S'.preds.map (updP1 rid sid m (v.getD "")) = S'.preds := by
        apply map_id_on
        intro x hx
        unfold updP1
        rw [if_neg ?_]
        intro hxk
        refine hex ⟨x, hx, ?_⟩
        simpa [Prod.ext_iff] using (hp x).mp hxk
      rw [hmap]
  · simp only [Bool.not_eq_true] at hb
    rw [if_neg (by simp [hb])]
    have hcr : stepCreated rid sid m v S'.preds = [] := by
      unfold stepCreated
      rw [if_neg (by intro hc; rw [hb] at hc; cases hc.1)]
    have hmap : S'.preds.map (stepUpd rid sid m v) = S'.preds := by
      apply map_id_on
      intro x _
      unfold stepUpd
      rw [if_neg (by simp [hb])]
    rw [hcr, List.append_nil, hmap]

/-- A step at model `m` leaves records of other models untouched. -/
theorem stepUpd_other_model (rid sid : String) (m : ModelName) (v : Option String)
    (p : ModelPrediction) (hne : p.model_name ≠ m) :
    stepUpd rid sid m v p = p := by
  unfold stepUpd updP1
  split
  · rw [if_neg ?_]
    intro hg
    simp only [Bool.and_eq_true, beq_iff_eq] at hg
    exact hne hg.2
  · rfl

/-- Everything a step creates is that step's canonical record. -/
theorem mem_stepCreated (rid sid : String) (m : ModelName) (v : Option String)
    (P : List ModelPrediction) (c : ModelPrediction)
    (hc : c ∈ stepCreated rid sid m v P) :
    c = ⟨rid, sid, m, v.getD "", none⟩ := by
  unfold stepCreated at hc
  split at hc
  · simpa using hc
  · cases hc

/-- The three per-model steps compose to the row's prediction update `updP`. -/
theorem stepUpd_comp (r : CleanRow) (p : ModelPrediction) :
    stepUpd r.review_id r.sentence_id ModelName.perplexity r.perplexity
      (stepUpd r.review_id r.sentence_id ModelName.gemini r.gemini
        (stepUpd r.review_id r.sentence_id ModelName.gpt4 r.gpt4 p)) = updP r p := by
  obtain ⟨pr, ps, pm, pt, pc⟩ := p
  cases pm with
  | gpt4 =>
      by_cases hb : nonBlank r.gpt4 = true <;>
        by_cases hk : (pr == r.review_id && ps == r.sentence_id) = true <;>
        simp [stepUpd, updP1, updP, predOf, hb, hk]
  | gemini =>
      by_cases hb : nonBlank r.gemini = true <;>
        by_cases hk : (pr == r.review_id && ps == r.sentence_id) = true <;>
        simp [stepUpd, updP1, updP, predOf, hb, hk]
  | perplexity =>
      by_cases hb : nonBlank r.perplexity = true <;>
        by_cases hk : (pr == r.review_id && ps == r.sentence_id) = true <;>
        simp [stepUpd, updP1, updP, predOf, hb, hk]

theorem predKeyIn_iff_mem_map (P : List ModelPrediction) (rid sid : String) (m : ModelName) :
    predKeyIn P rid sid m ↔
      (rid, sid, m) ∈ P.map (fun p => (p.review_id, p.sentence_id, p.model_name)) := by
  unfold predKeyIn
  constructor
  · rintro ⟨p, hp, h1, h2, h3⟩
    exact List.mem_map.mpr ⟨p, hp, by rw [h1, h2, h3]⟩
  · intro h
    rcases List.mem_map.mp h with ⟨p, hp, hk⟩
    simp only [Prod.mk.injEq] at hk
    exact ⟨p, hp, hk.1, hk.2.1, hk.2.2⟩

/-- One step keeps the prediction key list well-formed. -/
theorem nodup_keys_step (P : List ModelPrediction) (rid sid : String) (m : ModelName)
    (v : Option String)
    (hwf : (P.map (fun p => (p.review_id, p.sentence_id, p.model_name))).Nodup) :
    (((P.map (stepUpd rid sid m v) ++ stepCreated rid sid m v P).map
        (fun p => (p.review_id, p.sentence_id, p.model_name)))).Nodup := by
  rw [List.map_append,
      map_key_of_key_preserving _ (stepUpd rid sid m v) (stepUpd_key rid sid m v) P]
  unfold stepCreated
  split
  · rename_i hc
    simp only [List.map_cons, List.map_nil]
    rw [List.nodup_append]
    refine ⟨hwf, List.nodup_singleton _, ?_⟩
    intro k hk hk'
    simp only [List.mem_singleton] at hk'
    subst hk'
    exact hc.2 ((predKeyIn_iff_mem_map P rid sid m).mpr hk)
  · simpa using hwf

/-- The created records depend on the table only through key presence. -/
theorem stepCreated_congr (rid sid : String) (m : ModelName) (v : Option String)
    (P P' : List ModelPrediction) (h : predKeyIn P rid sid m ↔ predKeyIn P' rid sid m) :
    stepCreated rid sid m v P = stepCreated rid sid m v P' := by
  unfold stepCreated
  exact if_congr (and_congr_right (fun _ => not_congr h)) rfl rfl

/-- A step at model `m` never creates a record for another model's key. -/
theorem predKeyIn_stepCreated_other (rid sid rid' sid' : String) (m m' : ModelName)
    (v : Option String) (P : List ModelPrediction) (hne : m' ≠ m) :
    ¬ predKeyIn (stepCreated rid sid m v P) rid' sid' m' := by
  rintro ⟨c, hc, hk⟩
  have := mem_stepCreated rid sid m v P c hc
  subst this
  exact hne hk.2.2.symm

/-- `createdPreds` is the concatenation of the three per-step creations, all
computed against the starting table. -/
theorem createdPreds_eq_steps (r : CleanRow) (S : Store) :
    createdPreds r S =
      stepCreated r.review_id r.sentence_id ModelName.gpt4 r.gpt4 S.preds ++
      (stepCreated r.review_id r.sentence_id ModelName.gemini r.gemini S.preds ++
       stepCreated r.review_id r.sentence_id ModelName.perplexity r.perplexity S.preds) := by
  unfold createdPreds stepCreated
  by_cases b1 : nonBlank r.gpt4 = true <;>
    by_cases b2 : nonBlank r.gemini = true <;>
    by_cases b3 : nonBlank r.perplexity = true <;>
    by_cases e1 : predKeyIn S.preds r.review_id r.sentence_id ModelName.gpt4 <;>
    by_cases e2 : predKeyIn S.preds r.review_id r.sentence_id ModelName.gemini <;>
    by_cases e3 : predKeyIn S.preds r.review_id r.sentence_id ModelName.perplexity <;>
    simp [predOf, predKeyExists_eq_predKeyIn, b1, b2, b3, e1, e2, e3]

/-- On a well-keyed store, `_create_model_predictions` is exactly the value
update `updP` plus the created per-model records. -/
theorem createModelPredictions_write (S : Store) (sn : ReviewSentence) (r : CleanRow)
    (hwf : ((S.preds.map (fun p => (p.review_id, p.sentence_id, p.model_name)))).Nodup)
    (hrid : sn.review_id = r.review_id) (hsid : sn.sentence_id = r.sentence_id) :
    createModelPredictions S sn r =
      .ok ⟨S.reviews, S.sentences, S.preds.map (updP r) ++ createdPreds r S⟩ := by
  have hu1 := stepUpd_key r.review_id r.sentence_id ModelName.gpt4 r.gpt4
  have hu2 := stepUpd_key r.review_id r.sentence_id ModelName.gemini r.gemini
  have hiff1 : ∀ m' : ModelName, m' ≠ ModelName.gpt4 →
      (predKeyIn (S.preds.map (stepUpd r.review_id r.sentence_id ModelName.gpt4 r.gpt4) ++
          stepCreated r.review_id r.sentence_id ModelName.gpt4 r.gpt4 S.preds)
        r.review_id r.sentence_id m' ↔
       predKeyIn S.preds r.review_id r.sentence_id m') := by
    intro m' hne
    rw [predKeyIn_append, predKeyIn_map _ _ hu1]
    simp [predKeyIn_stepCreated_other r.review_id r.sentence_id r.review_id r.sentence_id
      ModelName.gpt4 m' r.gpt4 S.preds hne]
  unfold createModelPredictions modelData
  rw [hrid, hsid]
  simp only [List.foldlM_cons, List.foldlM_nil]
  rw [predStep_write r.review_id r.sentence_id ModelName.gpt4 r.gpt4 S hwf]
  simp only [except_ok_bind]
  have hwf1 := nodup_keys_step S.preds r.review_id r.sentence_id ModelName.gpt4 r.gpt4 hwf
  rw [predStep_write r.review_id r.sentence_id ModelName.gemini r.gemini _ hwf1]
  simp only [except_ok_bind]
  have hwf2 := nodup_keys_step _ r.review_id r.sentence_id ModelName.gemini r.gemini hwf1
  rw [predStep_write r.review_id r.sentence_id ModelName.perplexity r.perplexity _ hwf2]
  simp only [except_ok_bind, except_pure]
  have hC2 : stepCreated r.review_id r.sentence_id ModelName.gemini r.gemini
      (S.preds.map (stepUpd r.review_id r.sentence_id ModelName.gpt4 r.gpt4) ++
        stepCreated r.review_id r.sentence_id ModelName.gpt4 r.gpt4 S.preds) =
      stepCreated r.review_id r.sentence_id ModelName.gemini r.gemini S.preds :=
    stepCreated_congr _ _ _ _ _ _ (hiff1 ModelName.gemini (by simp))
  have hiff2 : predKeyIn
      ((S.preds.map (stepUpd r.review_id r.sentence_id ModelName.gpt4 r.gpt4) ++
          stepCreated r.review_id r.sentence_id ModelName.gpt4 r.gpt4 S.preds).map
            (stepUpd r.review_id r.sentence_id ModelName.gemini r.gemini) ++
        stepCreated r.review_id r.sentence_id ModelName.gemini r.gemini
          (S.preds.map (stepUpd r.review_id r.sentence_id ModelName.gpt4 r.gpt4) ++
            stepCreated r.review_id r.sentence_id ModelName.gpt4 r.gpt4 S.preds))
      r.review_id r.sentence_id ModelName.perplexity ↔
      predKeyIn S.preds r.review_id r.sentence_id ModelName.perplexity := by
    rw [predKeyIn_append, predKeyIn_map _ _ hu2]
    rw [hiff1 ModelName.perplexity (by simp)]
    simp [predKeyIn_stepCreated_other r.review_id r.sentence_id r.review_id r.sentence_id
      ModelName.gemini ModelName.perplexity r.gemini _ (by simp)]
  have hC3 : stepCreated r.review_id r.sentence_id ModelName.perplexity r.perplexity
      ((S.preds.map (stepUpd r.review_id r.sentence_id ModelName.gpt4 r.gpt4) ++
          stepCreated r.review_id r.sentence_id ModelName.gpt4 r.gpt4 S.preds).map
            (stepUpd r.review_id r.sentence_id ModelName.gemini r.gemini) ++
        stepCreated r.review_id r.sentence_id ModelName.gemini r.gemini
          (S.preds.map (stepUpd r.review_id r.sentence_id ModelName.gpt4 r.gpt4) ++
            stepCreated r.review_id r.sentence_id ModelName.gpt4 r.gpt4 S.preds)) =
      stepCreated r.review_id r.sentence_id ModelName.perplexity r.perplexity S.preds :=
    stepCreated_congr _ _ _ _ _ _ hiff2
  rw [hC3, hC2]
  have hmapC2 : (stepCreated r.review_id r.sentence_id ModelName.gemini r.gemini S.preds).map
      (stepUpd r.review_id r.sentence_id ModelName.perplexity r.perplexity) =
      stepCreated r.review_id r.sentence_id ModelName.gemini r.gemini S.preds := by
    apply map_id_on
    intro c hc
    have := mem_stepCreated _ _ _ _ _ c hc
    apply stepUpd_other_model
    rw [this]
    simp
  simp only [List.map_append, List.map_map, List.append_assoc]
  have hmapC1 : (stepCreated r.review_id r.sentence_id ModelName.gpt4 r.gpt4 S.preds).map
      (stepUpd r.review_id r.sentence_id ModelName.perplexity r.perplexity ∘
        stepUpd r.review_id r.sentence_id ModelName.gemini r.gemini) =
      stepCreated r.review_id r.sentence_id ModelName.gpt4 r.gpt4 S.preds := by
    apply map_id_on
    intro c hc
    have hcm := mem_stepCreated _ _ _ _ _ c hc
    have h1 : stepUpd r.review_id r.sentence_id ModelName.gemini r.gemini c = c :=
      stepUpd_other_model _ _ _ _ c (by rw [hcm]; simp)
    have h2 : stepUpd r.review_id r.sentence_id ModelName.perplexity r.perplexity c = c :=
      stepUpd_other_model _ _ _ _ c (by rw [hcm]; simp)
    simp [Function.comp, h1, h2]
  rw [hmapC1, hmapC2]
  have hcomp : S.preds.map
      (stepUpd r.review_id r.sentence_id ModelName.perplexity r.perplexity ∘
        (stepUpd r.review_id r.sentence_id ModelName.gemini r.gemini ∘
          stepUpd r.review_id r.sentence_id ModelName.gpt4 r.gpt4)) =
      S.preds.map (updP r) :=
    List.map_congr_left (fun x _ => stepUpd_comp r x)
  rw [hcomp, createdPreds_eq_steps]

/-- The full write of one valid row: value updates at the row's keys plus the
created records, on all three tables. -/
def writeStore (r : CleanRow) (S : Store) : Store :=
  ⟨S.reviews.map (updR r) ++ createdReviews r S,
   S.sentences.map (updS r) ++ createdSentences r S,
   S.preds.map (updP r) ++ createdPreds r S⟩

/-- On a well-formed store, `_process_single_row` on a valid row succeeds and
is exactly the row's write. -/
theorem processSingleRow_write (S : Store) (r : CleanRow) (hwf : S.wf) (hv : validRow r) :
    processSingleRow S r = .ok (writeStore r S) := by
  obtain ⟨hwfr, hwfs, hwfp, hfk⟩ := hwf
  obtain ⟨hv1, hv2⟩ := hv
  obtain ⟨rev, h1⟩ := getOrCreateReview_write S r hwfr hv1
  have h2 := getOrCreateSentence_write
    ⟨S.reviews.map (updR r) ++ createdReviews r S, S.sentences, S.preds⟩ r hwfs hv2
  have h3 := createModelPredictions_write
    ⟨S.reviews.map (updR r) ++ createdReviews r S,
     S.sentences.map (updS r) ++ createdSentences r S, S.preds⟩
    (sentenceOf r (rstxt r)) r hwfp rfl rfl
  unfold processSingleRow
  simp only [h1]
  rw [h2]
  exact h3

theorem updR_key (r : CleanRow) (q : Review) : (updR r q).review_id = q.review_id := by
  unfold updR
  split <;> rfl

theorem updS_key (r : CleanRow) (q : ReviewSentence) :
    (updS r q).review_id = q.review_id ∧ (updS r q).sentence_id = q.sentence_id := by
  unfold updS
  split
  · rename_i h
    simp only [Bool.and_eq_true, beq_iff_eq] at h
    exact ⟨h.1.symm, h.2.symm⟩
  · exact ⟨rfl, rfl⟩

theorem updP_key (r : CleanRow) (p : ModelPrediction) :
    ((updP r p).review_id, (updP r p).sentence_id, (updP r p).model_name) =
      (p.review_id, p.sentence_id, p.model_name) := by
  unfold updP
  split <;> rfl

theorem reviews_keys_map (r : CleanRow) (l : List Review) :
    (l.map (updR r)).map (fun q => q.review_id) = l.map (fun q => q.review_id) :=
  map_key_of_key_preserving _ _ (fun q => updR_key r q) l

theorem sentences_keys_map (r : CleanRow) (l : List ReviewSentence) :
    (l.map (updS r)).map (fun q => (q.review_id, q.sentence_id)) =
      l.map (fun q => (q.review_id, q.sentence_id)) :=
  map_key_of_key_preserving _ _
    (fun q => by rw [Prod.ext_iff]; exact ⟨(updS_key r q).1, (updS_key r q).2⟩) l

theorem preds_keys_map (r : CleanRow) (l : List ModelPrediction) :
    (l.map (updP r)).map (fun p => (p.review_id, p.sentence_id, p.model_name)) =
      l.map (fun p => (p.review_id, p.sentence_id, p.model_name)) :=
  map_key_of_key_preserving _ _ (fun p => updP_key r p) l

/-- What a created prediction record looks like. -/
theorem mem_createdPreds (r : CleanRow) (S : Store) (c : ModelPrediction)
    (hc : c ∈ createdPreds r S) :
    nonBlank (predOf r c.model_name) = true ∧
      ¬ predKeyIn S.preds r.review_id r.sentence_id c.model_name ∧
      c = ⟨r.review_id, r.sentence_id, c.model_name, (predOf r c.model_name).getD "", none⟩ := by
  unfold createdPreds at hc
  rcases List.mem_map.mp hc with ⟨m, hm, rfl⟩
  have hcond := List.of_mem_filter hm
  simp only [Bool.and_eq_true, Bool.not_eq_true', decide_eq_false_iff_not] at hcond
  exact ⟨hcond.1, hcond.2, rfl⟩

theorem createdPreds_keys_nodup (r : CleanRow) (S : Store) :
    ((createdPreds r S).map
      (fun p => (p.review_id, p.sentence_id, p.model_name))).Nodup := by
  unfold createdPreds
  rw [List.map_map]
  refine List.Nodup.map ?_ (List.Nodup.filter _ (by decide))
  intro a b hab
  simpa using hab

/-- Processing a valid row preserves store well-formedness. -/
theorem writeStore_wf (S : Store) (r : CleanRow) (hwf : S.wf) : (writeStore r S).wf := by
  obtain ⟨hwfr, hwfs, hwfp, hfk⟩ := hwf
  refine ⟨?_, ?_, ?_, ?_⟩
  · show ((S.reviews.map (updR r) ++ createdReviews r S).map (fun q => q.review_id)).Nodup
    rw [List.map_append, reviews_keys_map]
    unfold createdReviews
    split
    · simpa using hwfr
    · rename_i hex
      simp only [List.map_cons, List.map_nil]
      rw [List.nodup_append]
      refine ⟨hwfr, List.nodup_singleton _, ?_⟩
      intro k hk hk'
      simp only [List.mem_singleton] at hk'
      subst hk'
      rcases List.mem_map.mp hk with ⟨q, hq, hqk⟩
      exact hex ⟨q, hq, hqk⟩
  · show ((S.sentences.map (updS r) ++ createdSentences r S).map
      (fun q => (q.review_id, q.sentence_id))).Nodup
    rw [List.map_append, sentences_keys_map]
    unfold createdSentences
    split
    · simpa using hwfs
    · rename_i hex
      simp only [List.map_cons, List.map_nil]
      rw [List.nodup_append]
      refine ⟨hwfs, List.nodup_singleton _, ?_⟩
      intro k hk hk'
      simp only [List.mem_singleton] at hk'
      subst hk'
      rcases List.mem_map.mp hk with ⟨q, hq, hqk⟩
      simp only [sentenceOf, Prod.mk.injEq] at hqk
      exact hex ⟨q, hq, hqk.1, hqk.2⟩
  · show ((S.preds.map (updP r) ++ createdPreds r S).map
      (fun p => (p.review_id, p.sentence_id, p.model_name))).Nodup
    rw [List.map_append, preds_keys_map]
    rw [List.nodup_append]
    refine ⟨hwfp, createdPreds_keys_nodup r S, ?_⟩
    intro k hk hk'
    rcases List.mem_map.mp hk' with ⟨c, hc, hck⟩
    obtain ⟨-, hcnot, hceq⟩ := mem_createdPreds r S c hc
    apply hcnot
    rw [predKeyIn_iff_mem_map]
    have : k = (r.review_id, r.sentence_id, c.model_name) := by
      rw [← hck, hceq]
    rwa [this] at hk
  · intro p hp
    rcases List.mem_append.mp hp with hp | hp
    · rcases List.mem_map.mp hp with ⟨q, hq, rfl⟩
      obtain ⟨sn, hsn, hk1, hk2⟩ := hfk q hq
      refine ⟨updS r sn, List.mem_append.mpr (Or.inl (List.mem_map_of_mem _ hsn)), ?_, ?_⟩
      · have hks := updP_key r q
        simp only [Prod.mk.injEq] at hks
        rw [(updS_key r sn).1, hks.1]
        exact hk1
      · have hks := updP_key r q
        simp only [Prod.mk.injEq] at hks
        rw [(updS_key r sn).2, hks.2.1]
        exact hk2
    · obtain ⟨-, -, hceq⟩ := mem_createdPreds r S p hp
      by_cases hex : sentenceKeyExists S r.review_id r.sentence_id
      · obtain ⟨q, hq, hk1, hk2⟩ := hex
        refine ⟨updS r q, List.mem_append.mpr (Or.inl (List.mem_map_of_mem _ hq)), ?_, ?_⟩
        · rw [(updS_key r q).1, hk1, hceq]
        · rw [(updS_key r q).2, hk2, hceq]
      · refine ⟨sentenceOf r (rstxt r),
          List.mem_append.mpr (Or.inr ?_), ?_, ?_⟩
        · unfold createdSentences
          rw [if_neg hex]
          simp
        · rw [hceq]; rfl
        · rw [hceq]; rfl

/-- After a valid row's write, its review id has exactly one record, with the
row's review text. -/
theorem writeStore_reviewsWith (S : Store) (r : CleanRow) (hwf : S.wf) :
    reviewsWith (writeStore r S) r.review_id = [⟨r.review_id, rtxt r⟩] := by
  have hwf' := writeStore_wf S r hwf
  have hmem : (⟨r.review_id, rtxt r⟩ : Review) ∈ (writeStore r S).reviews := by
    by_cases hex : reviewKeyExists S r.review_id
    · obtain ⟨a, ha, hak⟩ := hex
      have hupd : updR r a = ⟨r.review_id, rtxt r⟩ := by
        unfold updR
        rw [if_pos (by simpa using hak), hak]
      exact List.mem_append.mpr (Or.inl (hupd ▸ List.mem_map_of_mem _ ha))
    · have hcr : createdReviews r S = [⟨r.review_id, rtxt r⟩] := by
        unfold createdReviews
        rw [if_neg hex]
      exact List.mem_append.mpr (Or.inr (by rw [hcr]; simp))
  exact filter_pred_eq_singleton (fun q => q.review_id) _ r.review_id (by intro x; simp)
    (writeStore r S).reviews hwf'.1 _ hmem rfl

/-- After a valid row's write, its sentence pair has exactly one record: the
row's canonical sentence. -/
theorem writeStore_sentencesWith (S : Store) (r : CleanRow) (hwf : S.wf) :
    sentencesWith (writeStore r S) r.review_id r.sentence_id = [sentenceOf r (rstxt r)] := by
  have hwf' := writeStore_wf S r hwf
  have hmem : sentenceOf r (rstxt r) ∈ (writeStore r S).sentences := by
    by_cases hex : sentenceKeyExists S r.review_id r.sentence_id
    · obtain ⟨a, ha, hk1, hk2⟩ := hex
      have hupd : updS r a = sentenceOf r (rstxt r) := by
        unfold updS
        rw [if_pos (by simp [hk1, hk2])]
      exact List.mem_append.mpr (Or.inl (hupd ▸ List.mem_map_of_mem _ ha))
    · have hcr : createdSentences r S = [sentenceOf r (rstxt r)] := by
        unfold createdSentences
        rw [if_neg hex]
      exact List.mem_append.mpr (Or.inr (by rw [hcr]; simp))
  exact filter_pred_eq_singleton (fun q => (q.review_id, q.sentence_id)) _
    (r.review_id, r.sentence_id) (by intro x; simp [Prod.ext_iff])
    (writeStore r S).sentences hwf'.2.1 _ hmem rfl

/-- After a valid row's write, each non-blank model has exactly one
prediction record at the row's key: the row's cell text with null
confidence. -/
theorem writeStore_predsWith_nonblank (S : Store) (r : CleanRow) (hwf : S.wf)
    (m : ModelName) (hb : nonBlank (predOf r m) = true) :
    predsWith (writeStore r S) r.review_id r.sentence_id m =
      [⟨r.review_id, r.sentence_id, m, (predOf r m).getD "", none⟩] := by
  have hwf' := writeStore_wf S r hwf
  have hmem : (⟨r.review_id, r.sentence_id, m, (predOf r m).getD "", none⟩ : ModelPrediction)
      ∈ (writeStore r S).preds := by
    by_cases hex : predKeyIn S.preds r.review_id r.sentence_id m
    · obtain ⟨p0, hp0, hk1, hk2, hk3⟩ := hex
      have hupd : updP r p0 = ⟨r.review_id, r.sentence_id, m, (predOf r m).getD "", none⟩ := by
        unfold updP
        rw [if_pos (by simp [hk1, hk2, hk3, hb])]
        rw [hk1, hk2, hk3]
      exact List.mem_append.mpr (Or.inl (hupd ▸ List.mem_map_of_mem _ hp0))
    · have hmm : m ∈ [ModelName.gpt4, ModelName.gemini, ModelName.perplexity] := by
        cases m <;> simp
      refine List.mem_append.mpr (Or.inr ?_)
      unfold createdPreds
      refine List.mem_map.mpr ⟨m, ?_, rfl⟩
      refine List.mem_filter.mpr ⟨hmm, ?_⟩
      simp only [hb, Bool.true_and, Bool.not_eq_eq_eq_not, Bool.not_true,
        decide_eq_false_iff_not]
      exact hex
  exact filter_pred_eq_singleton (fun p => (p.review_id, p.sentence_id, p.model_name)) _
    (r.review_id, r.sentence_id, m) (by intro x; simp [Prod.ext_iff, and_assoc])
    (writeStore r S).preds hwf'.2.2.1 _ hmem rfl

/-- After a valid row's write on a store in which the row's sentence pair was
fresh, a blank model has no prediction record at the row's key. -/
theorem writeStore_predsWith_blank_fresh (S : Store) (r : CleanRow) (hwf : S.wf)
    (hfresh : ¬ sentenceKeyExists S r.review_id r.sentence_id)
    (m : ModelName) (hb : nonBlank (predOf r m) = false) :
    predsWith (writeStore r S) r.review_id r.sentence_id m = [] := by
  apply filter_pred_eq_nil (fun p => (p.review_id, p.sentence_id, p.model_name)) _
    (r.review_id, r.sentence_id, m) (by intro x; simp [Prod.ext_iff, and_assoc])
  intro a ha hak
  rcases List.mem_append.mp ha with ha' | ha'
  · rcases List.mem_map.mp ha' with ⟨q, hq, rfl⟩
    have hks := updP_key r q
    rw [hks] at hak
    simp only [Prod.mk.injEq] at hak
    obtain ⟨sn, hsn, hs1, hs2⟩ := hwf.2.2.2 q hq
    exact hfresh ⟨sn, hsn, hak.1 ▸ hs1, hak.2.1 ▸ hs2⟩
  · obtain ⟨hcb, -, hceq⟩ := mem_createdPreds r S a ha'
    have hm : a.model_name = m := by
      rw [hceq] at hak
      simp only [Prod.mk.injEq] at hak
      exact hak.2.2
    rw [hm] at hcb
    rw [hcb] at hb
    cases hb

/-- C2: for every valid cleaned row whose (review_id, sentence_id) pair is
not yet stored, processing the row succeeds and afterwards exactly one
Review with the row's review id and review text exists, exactly one
ReviewSentence keyed by the pair exists, populated with the sentence text and
the three raw prediction cells, and exactly one ModelPrediction per model
with a non-blank cell exists (so between zero and three), each carrying the
row's text and a null confidence score. -/
theorem C2_fresh_pair_row (S : Store) (row : CleanRow) (hwf : S.wf) (hv : validRow row)
    (hfresh : ¬ sentenceKeyExists S row.review_id row.sentence_id) :
    ∃ S', processSingleRow S row = .ok S' ∧
      (∃ t, row.review_text = some t ∧
        reviewsWith S' row.review_id = [⟨row.review_id, t⟩]) ∧
      (∃ txt, row.review_sentence = some txt ∧
        sentencesWith S' row.review_id row.sentence_id =
          [⟨row.review_id, row.sentence_id, txt, row.gpt4, row.gemini, row.perplexity⟩]) ∧
      ∀ m : ModelName,
        predsWith S' row.review_id row.sentence_id m =
          (if nonBlank (predOf row m) then
            [⟨row.review_id, row.sentence_id, m, (predOf row m).getD "", none⟩]
           else []) := by
  refine ⟨writeStore row S, processSingleRow_write S row hwf hv, ?_, ?_, ?_⟩
  · obtain ⟨t, hrt, -⟩ := pyTruthy_some row.review_text hv.1
    refine ⟨t, hrt, ?_⟩
    have h := writeStore_reviewsWith S row hwf
    rwa [show rtxt row = t by simp [rtxt, hrt]] at h
  · obtain ⟨txt, hrs⟩ := Option.isSome_iff_exists.mp hv.2
    refine ⟨txt, hrs, ?_⟩
    have h := writeStore_sentencesWith S row hwf
    rwa [show rstxt row = txt by simp [rstxt, hrs]] at h
  · intro m
    by_cases hb : nonBlank (predOf row m) = true
    · rw [if_pos hb]
      exact writeStore_predsWith_nonblank S row hwf m hb
    · rw [if_neg hb]
      exact writeStore_predsWith_blank_fresh S row hwf hfresh m
        (by simpa using hb)

/-- Instance of C2 at the spec's worked example: review `R1`, sentence
`R1-S1`, gpt4/gemini `Positive`, perplexity blank. -/
theorem C2_witness :
    ∃ S', processSingleRow emptyStore
        ⟨"R1", some "Great product", some "It works well", some "Positive",
         some "Positive", none, "R1-S1"⟩ = .ok S' ∧
      (∃ t, (⟨"R1", some "Great product", some "It works well", some "Positive",
         some "Positive", none, "R1-S1"⟩ : CleanRow).review_text = some t ∧
        reviewsWith S' "R1" = [⟨"R1", t⟩]) ∧
      (∃ txt, (⟨"R1", some "Great product", some "It works well", some "Positive",
         some "Positive", none, "R1-S1"⟩ : CleanRow).review_sentence = some txt ∧
        sentencesWith S' "R1" "R1-S1" =
          [⟨"R1", "R1-S1", txt, some "Positive", some "Positive", none⟩]) ∧
      ∀ m : ModelName,
        predsWith S' "R1" "R1-S1" m =
          (if nonBlank (predOf ⟨"R1", some "Great product", some "It works well",
              some "Positive", some "Positive", none, "R1-S1"⟩ m) then
            [⟨"R1", "R1-S1", m, (predOf ⟨"R1", some "Great product", some "It works well",
              some "Positive", some "Positive", none, "R1-S1"⟩ m).getD "", none⟩]
           else []) :=
  C2_fresh_pair_row emptyStore
    ⟨"R1", some "Great product", some "It works well", some "Positive",
     some "Positive", none, "R1-S1"⟩
    (by decide) (by decide) (by decide)

/-! ## Idempotence of re-ingestion (claim C4 support) -/

/-- In a list with `Nodup` keys, two members with the same key coincide. -/
theorem key_unique {α κ : Type _} [DecidableEq κ] (key : α → κ) (l : List α)
    (h : (l.map key).Nodup) (a b : α) (ha : a ∈ l) (hb : b ∈ l) (hk : key a = key b) :
    a = b := by
  have hfa : l.filter (fun x => key x == key a) = [a] :=
    filter_pred_eq_singleton key _ (key a) (by intro x; simp) l h a ha rfl
  have hbmem : b ∈ l.filter (fun x => key x == key a) :=
    List.mem_filter.mpr ⟨hb, by simp [hk]⟩
  rw [hfa] at hbmem
  exact (List.mem_singleton.mp hbmem).symm

/-- `Forall₂` with a subsingleton-like relation forces list equality. -/
theorem forall₂_eq {α : Type _} (R : α → α → Prop) (hR : ∀ a b, R a b → a = b) :
    ∀ l l' : List α, List.Forall₂ R l l' → l = l' := by
  intro l
  induction l with
  | nil =>
      intro l' h
      cases h
      rfl
  | cons x xs ih =>
      intro l' h
      cases h with
      | cons hxy htail => rw [hR _ _ hxy, ih _ htail]

/-- The pure (update-only) write of one row, used for a second run in which
every key already exists. -/
def mapWrite (r : CleanRow) (T : Store) : Store :=
  ⟨T.reviews.map (updR r), T.sentences.map (updS r), T.preds.map (updP r)⟩

/-- Sequential pure writes of a row list. -/
def mapWriteAll (rows : List CleanRow) (T : Store) : Store :=
  rows.foldl (fun T' r => mapWrite r T') T

/-- Sequential full writes of a row list (one run over valid rows). -/
def totalWrite (rows : List CleanRow) (S : Store) : Store :=
  rows.foldl (fun S' r => writeStore r S') S

theorem totalWrite_cons (r : CleanRow) (rows : List CleanRow) (S : Store) :
    totalWrite (r :: rows) S = totalWrite rows (writeStore r S) := rfl

theorem mapWriteAll_cons (r : CleanRow) (rows : List CleanRow) (T : Store) :
    mapWriteAll (r :: rows) T = mapWriteAll rows (mapWrite r T) := rfl

/-- When every key of the row exists, the row's write creates nothing. -/
theorem writeStore_eq_mapWrite (r : CleanRow) (T : Store) (hk : keysExist r T) :
    writeStore r T = mapWrite r T := by
  unfold writeStore mapWrite
  have h1 : createdReviews r T = [] := by
    unfold createdReviews
    rw [if_pos hk.1]
  have h2 : createdSentences r T = [] := by
    unfold createdSentences
    rw [if_pos hk.2.1]
  have h3 : createdPreds r T = [] := by
    unfold createdPreds
    have hfil : ([ModelName.gpt4, ModelName.gemini, ModelName.perplexity].filter
        (fun m => nonBlank (predOf r m) &&
          !(decide (predKeyExists T r.review_id r.sentence_id m)))) = [] := by
      apply List.filter_eq_nil_iff.mpr
      intro m _ hcond
      simp only [Bool.and_eq_true, Bool.not_eq_eq_eq_not, Bool.not_true,
        decide_eq_false_iff_not] at hcond
      exact hcond.2 (hk.2.2 m hcond.1)
    rw [hfil]
    rfl
  rw [h1, h2, h3, List.append_nil, List.append_nil, List.append_nil]

/-- Key existence is monotone under one row's write. -/
theorem keysExist_mono_write (r r' : CleanRow) (S : Store) (h : keysExist r' S) :
    keysExist r' (writeStore r S) := by
  obtain ⟨⟨q, hq, hqk⟩, ⟨s, hs, hsk⟩, hpk⟩ := h
  refine ⟨⟨updR r q, List.mem_append.mpr (Or.inl (List.mem_map_of_mem _ hq)),
      by rw [updR_key]; exact hqk⟩,
    ⟨updS r s, List.mem_append.mpr (Or.inl (List.mem_map_of_mem _ hs)),
      by rw [(updS_key r s).1]; exact hsk.1, by rw [(updS_key r s).2]; exact hsk.2⟩, ?_⟩
  intro m hm
  obtain ⟨p, hp, hk1, hk2, hk3⟩ := hpk m hm
  have hks := updP_key r p
  simp only [Prod.mk.injEq] at hks
  exact ⟨updP r p, List.mem_append.mpr (Or.inl (List.mem_map_of_mem _ hp)),
    by rw [hks.1]; exact hk1, by rw [hks.2.1]; exact hk2, by rw [hks.2.2]; exact hk3⟩

/-- Key existence is monotone under one pure write. -/
theorem keysExist_mono_mapWrite (r r' : CleanRow) (S : Store) (h : keysExist r' S) :
    keysExist r' (mapWrite r S) := by
  obtain ⟨⟨q, hq, hqk⟩, ⟨s, hs, hsk⟩, hpk⟩ := h
  refine ⟨⟨updR r q, List.mem_map_of_mem _ hq, by rw [updR_key]; exact hqk⟩,
    ⟨updS r s, List.mem_map_of_mem _ hs,
      by rw [(updS_key r s).1]; exact hsk.1, by rw [(updS_key r s).2]; exact hsk.2⟩, ?_⟩
  intro m hm
  obtain ⟨p, hp, hk1, hk2, hk3⟩ := hpk m hm
  have hks := updP_key r p
  simp only [Prod.mk.injEq] at hks
  exact ⟨updP r p, List.mem_map_of_mem _ hp,
    by rw [hks.1]; exact hk1, by rw [hks.2.1]; exact hk2, by rw [hks.2.2]; exact hk3⟩

/-- A valid row's own keys exist after its write. -/
theorem keysExist_self_write (r : CleanRow) (S : Store) (hwf : S.wf) :
    keysExist r (writeStore r S) := by
  refine ⟨?_, ?_, ?_⟩
  · have h := writeStore_reviewsWith S r hwf
    have : (⟨r.review_id, rtxt r⟩ : Review) ∈ reviewsWith (writeStore r S) r.review_id := by
      rw [h]; simp
    exact ⟨_, (List.mem_filter.mp this).1, rfl⟩
  · have h := writeStore_sentencesWith S r hwf
    have : sentenceOf r (rstxt r) ∈
        sentencesWith (writeStore r S) r.review_id r.sentence_id := by
      rw [h]; simp
    exact ⟨_, (List.mem_filter.mp this).1, rfl, rfl⟩
  · intro m hm
    have h := writeStore_predsWith_nonblank S r hwf m hm
    have : (⟨r.review_id, r.sentence_id, m, (predOf r m).getD "", none⟩ : ModelPrediction) ∈
        predsWith (writeStore r S) r.review_id r.sentence_id m := by
      rw [h]; simp
    exact ⟨_, (List.mem_filter.mp this).1, rfl, rfl, rfl⟩

/-- One run over valid rows is the sequence of full writes, counts every row
as successful, and preserves well-formedness. -/
theorem foldl_stepStoreCount_writeAll (rows : List CleanRow) :
    ∀ (S : Store) (a b : Nat), S.wf → (∀ r ∈ rows, validRow r) →
    rows.foldl (fun acc r =>
        match processSingleRow acc.1 r with
        | .ok S' => (S', acc.2.1 + 1, acc.2.2)
        | .error _ => (acc.1, acc.2.1, acc.2.2 + 1)) ((S, a, b) : Store × Nat × Nat) =
      (totalWrite rows S, a + rows.length, b) := by
  induction rows with
  | nil =>
      intro S a b _ _
      simp [totalWrite]
  | cons r rs ih =>
      intro S a b hwf hv
      rw [List.foldl_cons]
      rw [processSingleRow_write S r hwf (hv r (by simp))]
      rw [ih (writeStore r S) (a + 1) b (writeStore_wf S r hwf)
        (fun q hq => hv q (by simp [hq]))]
      rw [totalWrite_cons]
      simp only [Prod.mk.injEq, List.length_cons, true_and, and_true, eq_self_iff_true]
      omega

theorem totalWrite_wf (rows : List CleanRow) : ∀ S : Store, S.wf →
    (totalWrite rows S).wf := by
  induction rows with
  | nil => intro S h; exact h
  | cons r rs ih =>
      intro S h
      rw [totalWrite_cons]
      exact ih _ (writeStore_wf S r h)

/-- Key existence is monotone under a whole run of writes. -/
theorem keysExist_mono_totalWrite (r : CleanRow) (rows : List CleanRow) :
    ∀ T : Store, keysExist r T → keysExist r (totalWrite rows T) := by
  induction rows with
  | nil => intro T h; exact h
  | cons q qs ih =>
      intro T h
      rw [totalWrite_cons]
      exact ih _ (keysExist_mono_write q r T h)

/-- After one run, every processed row's keys exist. -/
theorem keysExist_after_totalWrite (rows : List CleanRow) : ∀ S : Store, S.wf →
    ∀ r ∈ rows, keysExist r (totalWrite rows S) := by
  induction rows with
  | nil =>
      intro S _ r hr
      cases hr
  | cons q qs ih =>
      intro S hwf r hr
      rw [totalWrite_cons]
      rcases List.mem_cons.mp hr with rfl | hr' <;>
        first
        | exact keysExist_mono_totalWrite r qs _ (keysExist_self_write r S hwf)
        | exact ih _ (writeStore_wf S q hwf) r hr'

/-- When every row's keys exist, full writes degenerate to pure writes. -/
theorem totalWrite_eq_mapWriteAll (rows : List CleanRow) : ∀ S : Store,
    (∀ r ∈ rows, keysExist r S) → totalWrite rows S = mapWriteAll rows S := by
  induction rows with
  | nil => intro S _; rfl
  | cons r rs ih =>
      intro S hk
      rw [totalWrite_cons, mapWriteAll_cons,
          writeStore_eq_mapWrite r S (hk r (by simp))]
      exact ih _ (fun q hq => keysExist_mono_mapWrite r q S (hk q (by simp [hq])))

/-- A review record whose key no later row writes survives a run unchanged. -/
theorem review_stable_totalWrite (rows : List CleanRow) (k : String)
    (hK : ∀ r ∈ rows, r.review_id ≠ k) :
    ∀ (S : Store) (a : Review), a ∈ S.reviews → a.review_id = k →
      a ∈ (totalWrite rows S).reviews := by
  induction rows with
  | nil => intro S a ha _; exact ha
  | cons q qs ih =>
      intro S a ha hak
      rw [totalWrite_cons]
      refine ih (fun r hr => hK r (by simp [hr])) _ a ?_ hak
      have hid : updR q a = a := by
        unfold updR
        rw [if_neg ?_]
        intro hbeq
        have h1 : a.review_id = q.review_id := by simpa using hbeq
        exact hK q (by simp) (h1 ▸ hak)
      exact List.mem_append.mpr (Or.inl (hid ▸ List.mem_map_of_mem _ ha))

/-- A sentence record whose key no later row writes survives a run
unchanged. -/
theorem sentence_stable_totalWrite (rows : List CleanRow) (k1 k2 : String)
    (hK : ∀ r ∈ rows, r.review_id ≠ k1 ∨ r.sentence_id ≠ k2) :
    ∀ (S : Store) (a : ReviewSentence), a ∈ S.sentences →
      a.review_id = k1 → a.sentence_id = k2 →
      a ∈ (totalWrite rows S).sentences := by
  induction rows with
  | nil => intro S a ha _ _; exact ha
  | cons q qs ih =>
      intro S a ha hak1 hak2
      rw [totalWrite_cons]
      refine ih (fun r hr => hK r (by simp [hr])) _ a ?_ hak1 hak2
      have hid : updS q a = a := by
        unfold updS
        rw [if_neg ?_]
        intro hbeq
        simp only [Bool.and_eq_true, beq_iff_eq] at hbeq
        rcases hK q (by simp) with h | h
        · exact h (hbeq.1 ▸ hak1)
        · exact h (hbeq.2 ▸ hak2)
      exact List.mem_append.mpr (Or.inl (hid ▸ List.mem_map_of_mem _ ha))

/-- A prediction record whose key no later row writes survives a run
unchanged. -/
theorem pred_stable_totalWrite (rows : List CleanRow) (k1 k2 : String) (m : ModelName)
    (hK : ∀ r ∈ rows, r.review_id ≠ k1 ∨ r.sentence_id ≠ k2 ∨
      nonBlank (predOf r m) = false) :
    ∀ (S : Store) (a : ModelPrediction), a ∈ S.preds →
      a.review_id = k1 → a.sentence_id = k2 → a.model_name = m →
      a ∈ (totalWrite rows S).preds := by
  induction rows with
  | nil => intro S a ha _ _ _; exact ha
  | cons q qs ih =>
      intro S a ha hak1 hak2 hak3
      rw [totalWrite_cons]
      refine ih (fun r hr => hK r (by simp [hr])) _ a ?_ hak1 hak2 hak3
      have hid : updP q a = a := by
        unfold updP
        rw [if_neg ?_]
        intro hbeq
        simp only [Bool.and_eq_true, beq_iff_eq] at hbeq
        rcases hK q (by simp) with h | h | h
        · exact h (hbeq.1.1 ▸ hak1)
        · exact h (hbeq.1.2 ▸ hak2)
        · rw [hak3] at hbeq
          rw [hbeq.2] at h
          cases h
      exact List.mem_append.mpr (Or.inl (hid ▸ List.mem_map_of_mem _ ha))

/-- Any review in the written store carrying the row's id is the row's
canonical review. -/
theorem writeStore_review_at_key (S : Store) (r : CleanRow) (hwf : S.wf)
    (a : Review) (ha : a ∈ (writeStore r S).reviews) (hak : a.review_id = r.review_id) :
    a = ⟨r.review_id, rtxt r⟩ := by
  have h := writeStore_reviewsWith S r hwf
  have hmem : a ∈ reviewsWith (writeStore r S) r.review_id :=
    List.mem_filter.mpr ⟨ha, by simp [hak]⟩
  rw [h] at hmem
  simpa using hmem

/-- Any sentence in the written store carrying the row's pair key is the
row's canonical sentence. -/
theorem writeStore_sentence_at_key (S : Store) (r : CleanRow) (hwf : S.wf)
    (a : ReviewSentence) (ha : a ∈ (writeStore r S).sentences)
    (hak1 : a.review_id = r.review_id) (hak2 : a.sentence_id = r.sentence_id) :
    a = sentenceOf r (rstxt r) := by
  have h := writeStore_sentencesWith S r hwf
  have hmem : a ∈ sentencesWith (writeStore r S) r.review_id r.sentence_id :=
    List.mem_filter.mpr ⟨ha, by simp [hak1, hak2]⟩
  rw [h] at hmem
  simpa using hmem

/-- Any prediction in the written store at a key the row writes is the row's
canonical prediction. -/
theorem writeStore_pred_at_key (S : Store) (r : CleanRow) (hwf : S.wf)
    (a : ModelPrediction) (ha : a ∈ (writeStore r S).preds)
    (hak1 : a.review_id = r.review_id) (hak2 : a.sentence_id = r.sentence_id)
    (hb : nonBlank (predOf r a.model_name) = true) :
    a = ⟨r.review_id, r.sentence_id, a.model_name,
         (predOf r a.model_name).getD "", none⟩ := by
  have h := writeStore_predsWith_nonblank S r hwf a.model_name hb
  have hmem : a ∈ predsWith (writeStore r S) r.review_id r.sentence_id a.model_name :=
    List.mem_filter.mpr ⟨ha, by simp [hak1, hak2]⟩
  rw [h] at hmem
  simpa using hmem

theorem forall₂_map_both {α : Type _} (R Q : α → α → Prop) (f g : α → α)
    (himp : ∀ a b, R a b → Q (f a) (g b)) :
    ∀ l l' : List α, List.Forall₂ R l l' → List.Forall₂ Q (l.map f) (l'.map g) := by
  intro l l' h
  induction h with
  | nil => exact List.Forall₂.nil
  | cons hab _ ihtail => exact List.Forall₂.cons (himp _ _ hab) ihtail

theorem forall₂_map_left_rel {α : Type _} (R : α → α → Prop) (f : α → α) (l : List α)
    (h : ∀ a ∈ l, R (f a) a) : List.Forall₂ R (l.map f) l := by
  induction l with
  | nil => exact List.Forall₂.nil
  | cons x xs ih =>
      exact List.Forall₂.cons (h x (by simp)) (ih (fun a ha => h a (by simp [ha])))

/-- Componentwise view of a pure-write run. -/
theorem mapWriteAll_decomp (rows : List CleanRow) : ∀ T : Store,
    mapWriteAll rows T =
      ⟨rows.foldl (fun l r => l.map (updR r)) T.reviews,
       rows.foldl (fun l r => l.map (updS r)) T.sentences,
       rows.foldl (fun l r => l.map (updP r)) T.preds⟩ := by
  induction rows with
  | nil => intro T; rfl
  | cons q qs ih =>
      intro T
      rw [mapWriteAll_cons, ih]
      rfl

/-- Review folds agree on lists that agree outside the keys still to be
written. -/
theorem foldMapR_congr (rows : List CleanRow) :
    ∀ A B : List Review,
      List.Forall₂ (fun a b => a.review_id = b.review_id ∧
        ((∀ r' ∈ rows, r'.review_id ≠ a.review_id) → a = b)) A B →
      rows.foldl (fun l r => l.map (updR r)) A =
        rows.foldl (fun l r => l.map (updR r)) B := by
  induction rows with
  | nil =>
      intro A B h
      exact forall₂_eq _ (fun a b hab => hab.2 (fun r hr => absurd hr (List.not_mem_nil r)))
        A B h
  | cons q qs ih =>
      intro A B h
      rw [List.foldl_cons, List.foldl_cons]
      apply ih
      refine forall₂_map_both _ _ _ _ ?_ A B h
      intro a b hab
      obtain ⟨hkey, hcond⟩ := hab
      refine ⟨by rw [updR_key, updR_key]; exact hkey, ?_⟩
      intro h'
      simp only [updR_key] at h'
      by_cases hq : q.review_id = a.review_id
      · unfold updR
        rw [if_pos (beq_iff_eq.mpr hq.symm),
            if_pos (beq_iff_eq.mpr (hkey.symm.trans hq.symm))]
        rw [hkey]
      · have hab' : a = b := hcond (by
          intro r' hr'
          rcases List.mem_cons.mp hr' with rfl | hr''
          · exact fun hh => hq hh
          · exact h' r' hr'')
        rw [hab']

/-- Sentence folds agree on lists that agree outside the keys still to be
written. -/
theorem foldMapS_congr (rows : List CleanRow) :
    ∀ A B : List ReviewSentence,
      List.Forall₂ (fun a b => a.review_id = b.review_id ∧
        a.sentence_id = b.sentence_id ∧
        ((∀ r' ∈ rows, r'.review_id ≠ a.review_id ∨ r'.sentence_id ≠ a.sentence_id) →
          a = b)) A B →
      rows.foldl (fun l r => l.map (updS r)) A =
        rows.foldl (fun l r => l.map (updS r)) B := by
  induction rows with
  | nil =>
      intro A B h
      exact forall₂_eq _
        (fun a b hab => hab.2.2 (fun r hr => absurd hr (List.not_mem_nil r))) A B h
  | cons q qs ih =>
      intro A B h
      rw [List.foldl_cons, List.foldl_cons]
      apply ih
      refine forall₂_map_both _ _ _ _ ?_ A B h
      intro a b hab
      obtain ⟨hk1, hk2, hcond⟩ := hab
      refine ⟨by rw [(updS_key q a).1, (updS_key q b).1]; exact hk1,
              by rw [(updS_key q a).2, (updS_key q b).2]; exact hk2, ?_⟩
      intro h'
      simp only [(updS_key q a).1, (updS_key q a).2] at h'
      by_cases hq : q.review_id = a.review_id ∧ q.sentence_id = a.sentence_id
      · have hga : (a.review_id == q.review_id && a.sentence_id == q.sentence_id) = true := by
          simp only [Bool.and_eq_true, beq_iff_eq]
          exact ⟨hq.1.symm, hq.2.symm⟩
        have hgb : (b.review_id == q.review_id && b.sentence_id == q.sentence_id) = true := by
          simp only [Bool.and_eq_true, beq_iff_eq]
          exact ⟨hk1.symm.trans hq.1.symm, hk2.symm.trans hq.2.symm⟩
        unfold updS
        rw [if_pos hga, if_pos hgb]
      · have hab' : a = b := hcond (by
          intro r' hr'
          rcases List.mem_cons.mp hr' with rfl | hr''
          · rcases not_and_or.mp hq with hh | hh
            · exact Or.inl (fun he => hh he)
            · exact Or.inr (fun he => hh he)
          · exact h' r' hr'')
        rw [hab']

/-- Prediction folds agree on lists that agree outside the keys still to be
written. -/
theorem foldMapP_congr (rows : List CleanRow) :
    ∀ A B : List ModelPrediction,
      List.Forall₂ (fun a b => a.review_id = b.review_id ∧
        a.sentence_id = b.sentence_id ∧ a.model_name = b.model_name ∧
        ((∀ r' ∈ rows, r'.review_id ≠ a.review_id ∨ r'.sentence_id ≠ a.sentence_id ∨
            nonBlank (predOf r' a.model_name) = false) → a = b)) A B →
      rows.foldl (fun l r => l.map (updP r)) A =
        rows.foldl (fun l r => l.map (updP r)) B := by
  induction rows with
  | nil =>
      intro A B h
      exact forall₂_eq _
        (fun a b hab => hab.2.2.2 (fun r hr => absurd hr (List.not_mem_nil r))) A B h
  | cons q qs ih =>
      intro A B h
      rw [List.foldl_cons, List.foldl_cons]
      apply ih
      refine forall₂_map_both _ _ _ _ ?_ A B h
      intro a b hab
      obtain ⟨hk1, hk2, hk3, hcond⟩ := hab
      have hka := updP_key q a
      have hkb := updP_key q b
      simp only [Prod.mk.injEq] at hka hkb
      refine ⟨by rw [hka.1, hkb.1]; exact hk1,
              by rw [hka.2.1, hkb.2.1]; exact hk2,
              by rw [hka.2.2, hkb.2.2]; exact hk3, ?_⟩
      intro h'
      simp only [hka.1, hka.2.1, hka.2.2] at h'
      by_cases hq : q.review_id = a.review_id ∧ q.sentence_id = a.sentence_id ∧
          nonBlank (predOf q a.model_name) = true
      · have hga : (a.review_id == q.review_id && a.sentence_id == q.sentence_id &&
            nonBlank (predOf q a.model_name)) = true := by
          simp only [Bool.and_eq_true, beq_iff_eq]
          exact ⟨⟨hq.1.symm, hq.2.1.symm⟩, hq.2.2⟩
        have hgb : (b.review_id == q.review_id && b.sentence_id == q.sentence_id &&
            nonBlank (predOf q b.model_name)) = true := by
          simp only [Bool.and_eq_true, beq_iff_eq]
          refine ⟨⟨hk1.symm.trans hq.1.symm, hk2.symm.trans hq.2.1.symm⟩, ?_⟩
          rw [← hk3]
          exact hq.2.2
        unfold updP
        rw [if_pos hga, if_pos hgb]
        rw [hk1, hk2, hk3]
      · have hab' : a = b := hcond (by
          intro r' hr'
          rcases List.mem_cons.mp hr' with rfl | hr''
          · rcases not_and_or.mp hq with hh | hh
            · exact Or.inl (fun he => hh he)
            · rcases not_and_or.mp hh with hh' | hh'
              · exact Or.inr (Or.inl (fun he => hh' he))
              · exact Or.inr (Or.inr (by
                  cases hcase : nonBlank (predOf r' a.model_name)
                  · rfl
                  · exact absurd hcase hh'))
          · exact h' r' hr'')
        rw [hab']

/-- Re-applying a run's pure writes to the run's own result changes
nothing: each key's final value comes from its last writer, which writes the
same value again. -/
theorem mapWriteAll_absorb (rows : List CleanRow) : ∀ S : Store, S.wf →
    (∀ r ∈ rows, validRow r) →
    mapWriteAll rows (totalWrite rows S) = totalWrite rows S := by
  induction rows with
  | nil => intro S _ _; rfl
  | cons r rs ih =>
      intro S hwf hv
      rw [totalWrite_cons, mapWriteAll_cons]
      have hwfW : (writeStore r S).wf := writeStore_wf S r hwf
      have hwfT : (totalWrite rs (writeStore r S)).wf := totalWrite_wf rs _ hwfW
      have ihT := ih (writeStore r S) hwfW (fun q hq => hv q (by simp [hq]))
      suffices hsuff : mapWriteAll rs (mapWrite r (totalWrite rs (writeStore r S))) =
          mapWriteAll rs (totalWrite rs (writeStore r S)) by
        rw [hsuff, ihT]
      rw [mapWriteAll_decomp, mapWriteAll_decomp]
      have hR : rs.foldl (fun l r' => l.map (updR r'))
            (mapWrite r (totalWrite rs (writeStore r S))).reviews =
          rs.foldl (fun l r' => l.map (updR r'))
            (totalWrite rs (writeStore r S)).reviews := by
        apply foldMapR_congr
        apply forall₂_map_left_rel
        intro a ha
        refine ⟨updR_key r a, ?_⟩
        intro h'
        simp only [updR_key] at h'
        by_cases hq : r.review_id = a.review_id
        · have hcmem : (⟨r.review_id, rtxt r⟩ : Review) ∈ (writeStore r S).reviews := by
            have h0 := writeStore_reviewsWith S r hwf
            have : (⟨r.review_id, rtxt r⟩ : Review) ∈
                reviewsWith (writeStore r S) r.review_id := by
              rw [h0]; simp
            exact (List.mem_filter.mp this).1
          have hcT : (⟨r.review_id, rtxt r⟩ : Review) ∈
              (totalWrite rs (writeStore r S)).reviews :=
            review_stable_totalWrite rs a.review_id h' _ _ hcmem (by simpa using hq)
          have ha' : a = ⟨r.review_id, rtxt r⟩ :=
            key_unique (fun x => x.review_id) _ hwfT.1 a _ ha hcT (by simpa using hq.symm)
          unfold updR
          rw [if_pos (beq_iff_eq.mpr hq.symm)]
          rw [ha']
        · unfold updR
          rw [if_neg ?_]
          intro hbeq
          exact hq ((beq_iff_eq.mp hbeq).symm)
      have hS : rs.foldl (fun l r' => l.map (updS r'))
            (mapWrite r (totalWrite rs (writeStore r S))).sentences =
          rs.foldl (fun l r' => l.map (updS r'))
            (totalWrite rs (writeStore r S)).sentences := by
        apply foldMapS_congr
        apply forall₂_map_left_rel
        intro a ha
        refine ⟨(updS_key r a).1, (updS_key r a).2, ?_⟩
        intro h'
        simp only [(updS_key r a).1, (updS_key r a).2] at h'
        by_cases hq : r.review_id = a.review_id ∧ r.sentence_id = a.sentence_id
        · have hcmem : sentenceOf r (rstxt r) ∈ (writeStore r S).sentences := by
            have h0 := writeStore_sentencesWith S r hwf
            have : sentenceOf r (rstxt r) ∈
                sentencesWith (writeStore r S) r.review_id r.sentence_id := by
              rw [h0]; simp
            exact (List.mem_filter.mp this).1
          have hcT : sentenceOf r (rstxt r) ∈
              (totalWrite rs (writeStore r S)).sentences :=
            sentence_stable_totalWrite rs a.review_id a.sentence_id h' _ _ hcmem
              (by simpa [sentenceOf] using hq.1) (by simpa [sentenceOf] using hq.2)
          have ha' : a = sentenceOf r (rstxt r) :=
            key_unique (fun x => (x.review_id, x.sentence_id)) _ hwfT.2.1 a _ ha hcT
              (by simp [sentenceOf, Prod.ext_iff, hq.1.symm, hq.2.symm])
          unfold updS
          rw [if_pos (by
            simp only [Bool.and_eq_true, beq_iff_eq]
            exact ⟨hq.1.symm, hq.2.symm⟩)]
          rw [ha']
        · unfold updS
          rw [if_neg ?_]
          intro hbeq
          simp only [Bool.and_eq_true, beq_iff_eq] at hbeq
          exact hq ⟨hbeq.1.symm, hbeq.2.symm⟩
      have hP : rs.foldl (fun l r' => l.map (updP r'))
            (mapWrite r (totalWrite rs (writeStore r S))).preds =
          rs.foldl (fun l r' => l.map (updP r'))
            (totalWrite rs (writeStore r S)).preds := by
        apply foldMapP_congr
        apply forall₂_map_left_rel
        intro a ha
        have hka := updP_key r a
        simp only [Prod.mk.injEq] at hka
        refine ⟨hka.1, hka.2.1, hka.2.2, ?_⟩
        intro h'
        simp only [hka.1, hka.2.1, hka.2.2] at h'
        by_cases hq : r.review_id = a.review_id ∧ r.sentence_id = a.sentence_id ∧
            nonBlank (predOf r a.model_name) = true
        · have hcmem : (⟨r.review_id, r.sentence_id, a.model_name,
              (predOf r a.model_name).getD "", none⟩ : ModelPrediction) ∈
              (writeStore r S).preds := by
            have h0 := writeStore_predsWith_nonblank S r hwf a.model_name hq.2.2
            have : (⟨r.review_id, r.sentence_id, a.model_name,
                (predOf r a.model_name).getD "", none⟩ : ModelPrediction) ∈
                predsWith (writeStore r S) r.review_id r.sentence_id a.model_name := by
              rw [h0]; simp
            exact (List.mem_filter.mp this).1
          have hcT : (⟨r.review_id, r.sentence_id, a.model_name,
              (predOf r a.model_name).getD "", none⟩ : ModelPrediction) ∈
              (totalWrite rs (writeStore r S)).preds :=
            pred_stable_totalWrite rs a.review_id a.sentence_id a.model_name h' _ _ hcmem
              (by simpa using hq.1) (by simpa using hq.2.1) rfl
          have ha' : a = ⟨r.review_id, r.sentence_id, a.model_name,
              (predOf r a.model_name).getD "", none⟩ :=
            key_unique (fun x => (x.review_id, x.sentence_id, x.model_name)) _
              hwfT.2.2.1 a _ ha hcT
              (by simp [Prod.ext_iff, hq.1.symm, hq.2.1.symm])
          have hfields := ha'
          rw [ModelPrediction.mk.injEq] at hfields
          unfold updP
          rw [if_pos (by
            simp only [Bool.and_eq_true, beq_iff_eq]
            exact ⟨⟨hq.1.symm, hq.2.1.symm⟩, hq.2.2⟩)]
          rw [ModelPrediction.mk.injEq]
          exact ⟨rfl, rfl, rfl, hfields.2.2.2.1.symm, hfields.2.2.2.2.symm⟩
        · unfold updP
          rw [if_neg ?_]
          intro hbeq
          simp only [Bool.and_eq_true, beq_iff_eq] at hbeq
          exact hq ⟨hbeq.1.1.symm, hbeq.1.2.symm, hbeq.2⟩
      rw [hR, hS, hP]

/-- A second pass of a run's writes over the run's own result is absorbed. -/
theorem totalWrite_absorb (rows : List CleanRow) (S : Store) (hwf : S.wf)
    (hv : ∀ r ∈ rows, validRow r) :
    totalWrite rows (totalWrite rows S) = totalWrite rows S := by
  rw [totalWrite_eq_mapWriteAll rows _ (keysExist_after_totalWrite rows S hwf)]
  exact mapWriteAll_absorb rows S hwf hv

/-- The observable part of the run accumulator: store and the two counters
(the processing log is write-only bookkeeping). -/
def projAcc (a : RunAcc) : Store × Nat × Nat := (a.store, a.successful, a.failed)

/-- One row's effect on store and counters, with the logging stripped. -/
def stepCount (t : Store × Nat × Nat) (r : CleanRow) : Store × Nat × Nat :=
  match processSingleRow t.1 r with
  | .ok S' => (S', t.2.1 + 1, t.2.2)
  | .error _ => (t.1, t.2.1, t.2.2 + 1)

theorem projAcc_foldl (l : List (Nat × CleanRow)) : ∀ acc : RunAcc,
    projAcc (List.foldl processRowStep acc l) =
      List.foldl (fun t ir => stepCount t ir.2) (projAcc acc) l := by
  induction l with
  | nil => intro acc; rfl
  | cons x xs ih =>
      intro acc
      rw [List.foldl_cons, List.foldl_cons, ih]
      congr 1
      unfold projAcc processRowStep stepCount
      cases processSingleRow acc.store x.2 <;> rfl

theorem projAcc_processBatch (acc : RunAcc) (k : Nat) (b : List (Nat × CleanRow)) :
    projAcc (processBatch acc k b) =
      List.foldl (fun t ir => stepCount t ir.2) (projAcc acc) b := by
  unfold processBatch
  rw [projAcc_foldl]
  rfl

theorem projAcc_processBatches (bs : List (List (Nat × CleanRow))) :
    ∀ (acc : RunAcc) (pos : Nat),
    projAcc (processBatches acc pos bs) =
      List.foldl (fun t ir => stepCount t ir.2) (projAcc acc) bs.flatten := by
  induction bs with
  | nil => intro acc pos; rfl
  | cons b bs ih =>
      intro acc pos
      simp only [processBatches]
      rw [ih, projAcc_processBatch, List.flatten_cons, List.foldl_append]

/-- On a well-formed store and all-valid rows, the whole batch loop is the
pure total write: every row succeeds, so the counters are `(|rows|, 0)`. -/
theorem run_eq_totalWrite (S : Store) (rows : List (Nat × CleanRow)) (plog0 : List String)
    (hwf : S.wf) (hv : ∀ ir ∈ rows, validRow ir.2) :
    projAcc (processBatches ⟨S, 0, 0, plog0⟩ 0 (toBatches 1000 rows)) =
      (totalWrite (rows.map Prod.snd) S, rows.length, 0) := by
  rw [projAcc_processBatches, toBatches_flatten 1000 (by decide)]
  have hmap : List.foldl (fun t ir => stepCount t ir.2)
        (projAcc ⟨S, 0, 0, plog0⟩) rows =
      List.foldl stepCount (projAcc ⟨S, 0, 0, plog0⟩) (rows.map Prod.snd) :=
    (List.foldl_map Prod.snd stepCount rows _).symm
  rw [hmap]
  have hv' : ∀ r ∈ rows.map Prod.snd, validRow r := by
    intro r hr
    rcases List.mem_map.mp hr with ⟨ir, hir, he⟩
    exact he ▸ hv ir hir
  have hfold := foldl_stepStoreCount_writeAll (rows.map Prod.snd) S 0 0 hwf hv'
  show List.foldl stepCount ((S, 0, 0) : Store × Nat × Nat) (rows.map Prod.snd) =
    (totalWrite (rows.map Prod.snd) S, rows.length, 0)
  rw [show (rows.length : Nat) = 0 + (rows.map Prod.snd).length by simp]
  exact hfold

/-- The store, `successful_rows` and `failed_rows` a completed run produces
from a well-formed store, when every cleaned row is valid. -/
theorem process_run_facts (S : Store) (log0 : UploadLog) (t : RawTable)
    (rows : List (Nat × CleanRow)) (dropped : Nat)
    (hwf : S.wf) (hc : clean_data t = .ok (rows, dropped))
    (hv : ∀ ir ∈ rows, validRow ir.2) :
    (process_csv_file S log0 (.ok t)).1 = totalWrite (rows.map Prod.snd) S ∧
    (process_csv_file S log0 (.ok t)).2.1.successful_rows = rows.length ∧
    (process_csv_file S log0 (.ok t)).2.1.failed_rows = 0 := by
  have hb := run_eq_totalWrite S rows (["Successfully read CSV"] ++
      (if dropped > 0 then
        ["Dropped " ++ toString dropped ++ " rows with missing essential data"]
       else [])) hwf hv
  simp only [projAcc, Prod.mk.injEq] at hb
  refine ⟨?_, ?_, ?_⟩ <;> simp only [process_csv_file, hc]
  · exact hb.1
  · exact hb.2.1
  · exact hb.2.2

/-- A two-row file whose first row lacks `review_text` (NaN): the first row
fails on the first run (NOT NULL review text at create) but succeeds on the
second run, because the second row's create made the review exist. -/
def idempotenceGapTable : RawTable :=
  ⟨REQUIRED_COLUMNS,
   [⟨some "R1", none, some "s", none, none, none, some "S1"⟩,
    ⟨some "R1", some "T", some "t", none, none, none, some "S2"⟩]⟩

/-- C4 counterexample: ingestion is not idempotent on every file.  On
`idempotenceGapTable` the first run stores one sentence and reports
`successful_rows = 1, failed_rows = 1`; re-running the identical file on the
resulting store creates a second sentence (the previously failing row now
finds its review and succeeds) and reports `successful_rows = 2`. -/
theorem C4_counterexample :
    (process_csv_file emptyStore initialUploadLog
        (.ok idempotenceGapTable)).1.sentences.length = 1 ∧
    (process_csv_file emptyStore initialUploadLog
        (.ok idempotenceGapTable)).2.1.successful_rows = 1 ∧
    (process_csv_file emptyStore initialUploadLog
        (.ok idempotenceGapTable)).2.1.failed_rows = 1 ∧
    (process_csv_file (process_csv_file emptyStore initialUploadLog
          (.ok idempotenceGapTable)).1
        initialUploadLog (.ok idempotenceGapTable)).1.sentences.length = 2 ∧
    (process_csv_file (process_csv_file emptyStore initialUploadLog
          (.ok idempotenceGapTable)).1
        initialUploadLog (.ok idempotenceGapTable)).2.1.successful_rows = 2 := by
  decide

/-- C4 (amended): on a well-formed store, ingestion of a file all of whose
cleaned rows are valid (truthy review text, non-null sentence text) is
idempotent: the first run completes with `successful_rows` equal to the
number of cleaned rows and `failed_rows = 0` and leaves a well-formed store
(uniqueness of review keys, `(review, sentence_id)` and
`(sentence, model_name)` preserved), and a second run over the identical file
leaves the store exactly unchanged — creating no entity and changing no
stored field — while reporting the same counters again. -/
theorem C4_amended_idempotent_valid_rows (S : Store) (log0 log0' : UploadLog)
    (t : RawTable) (rows : List (Nat × CleanRow)) (dropped : Nat)
    (hwf : S.wf) (hc : clean_data t = .ok (rows, dropped))
    (hv : ∀ ir ∈ rows, validRow ir.2) :
    (process_csv_file (process_csv_file S log0 (.ok t)).1 log0' (.ok t)).1 =
      (process_csv_file S log0 (.ok t)).1 ∧
    (process_csv_file S log0 (.ok t)).1.wf ∧
    (process_csv_file S log0 (.ok t)).2.1.successful_rows = rows.length ∧
    (process_csv_file S log0 (.ok t)).2.1.failed_rows = 0 ∧
    (process_csv_file (process_csv_file S log0 (.ok t)).1 log0' (.ok t)).2.1.successful_rows =
      rows.length ∧
    (process_csv_file (process_csv_file S log0 (.ok t)).1 log0' (.ok t)).2.1.failed_rows = 0 := by
  have hv2 : ∀ r ∈ rows.map Prod.snd, validRow r := by
    intro r hr
    rcases List.mem_map.mp hr with ⟨ir, hir, he⟩
    exact he ▸ hv ir hir
  obtain ⟨h1s, h1a, h1b⟩ := process_run_facts S log0 t rows dropped hwf hc hv
  have hwf1 : (process_csv_file S log0 (.ok t)).1.wf := by
    rw [h1s]
    exact totalWrite_wf (rows.map Prod.snd) S hwf
  obtain ⟨h2s, h2a, h2b⟩ :=
    process_run_facts (process_csv_file S log0 (.ok t)).1 log0' t rows dropped hwf1 hc hv
  refine ⟨?_, hwf1, h1a, h1b, h2a, h2b⟩
  rw [h2s, h1s]
  exact totalWrite_absorb (rows.map Prod.snd) S hwf hv2

/-- The cleaned contents of `oneRowTable`: one fully valid row. -/
def oneValidRow : List (Nat × CleanRow) :=
  [(0, ⟨"R1", some "Great product", some "It works well", some "Positive",
        some "Positive", none, "R1-S1"⟩)]

/-- Instance of C4 (amended): running the one-row example file twice from the
empty store changes nothing the second time and reports `1` success and `0`
failures both times. -/
theorem C4_witness :
    emptyStore.wf ∧
    clean_data oneRowTable = .ok (oneValidRow, 0) ∧
    (∀ ir ∈ oneValidRow, validRow ir.2) ∧
    ((process_csv_file (process_csv_file emptyStore initialUploadLog (.ok oneRowTable)).1
        initialUploadLog (.ok oneRowTable)).1 =
      (process_csv_file emptyStore initialUploadLog (.ok oneRowTable)).1 ∧
     (process_csv_file emptyStore initialUploadLog (.ok oneRowTable)).1.wf ∧
     (process_csv_file emptyStore initialUploadLog (.ok oneRowTable)).2.1.successful_rows =
       oneValidRow.length ∧
     (process_csv_file emptyStore initialUploadLog (.ok oneRowTable)).2.1.failed_rows = 0 ∧
     (process_csv_file (process_csv_file emptyStore initialUploadLog (.ok oneRowTable)).1
        initialUploadLog (.ok oneRowTable)).2.1.successful_rows = oneValidRow.length ∧
     (process_csv_file (process_csv_file emptyStore initialUploadLog (.ok oneRowTable)).1
        initialUploadLog (.ok oneRowTable)).2.1.failed_rows = 0) :=
  ⟨by decide, by decide, by decide,
   C4_amended_idempotent_valid_rows emptyStore initialUploadLog initialUploadLog
     oneRowTable oneValidRow 0 (by decide) (by decide) (by decide)⟩

end SentimentEval
